import Mathlib

/-!
Verification of the oxeylyzer layout-scoring and optimization engine
(`src/generate.rs`, `src/utility.rs`) against its specification.

Modelling conventions:
* `f64` values are modelled as exact rationals (`ℚ`).  Every operation the
  scoring path performs on scores is `+`, `-`, `*`, `max` or a comparison,
  so the rational model is exact; the spec's "equal to 7 decimal digits"
  becomes exact equality.  The two floating-point constants the code uses,
  `f64::MAX` and `f64::MIN`, are modelled by their exact rational values.
* Code of the repository that is not part of the two given source files
  (`FastLayout` from `layout.rs`, the trigram classifier from
  `trigram_patterns.rs`) is modelled from the spec; each such definition
  carries a doc comment starting with "Modelled from the spec:".
* The trigram classifier is an arbitrary pure function stored in the
  engine structure, as the spec instructs ("treated as a pure function
  `classify(trigram, layout) → pattern`").
-/

/-- Exact value of `f64::MAX`. -/
def F64MAX : ℚ := (2 ^ 53 - 1) * 2 ^ 971

/-- Exact value of `f64::MIN`. -/
def F64MIN : ℚ := -F64MAX

/-- The pruning sentinel `f64::MIN + 1000.0` returned by `score_swap_cached`
(generate.rs line 658). -/
def SENTINEL : ℚ := F64MIN + 1000

/-- Rounding toward zero, as `f64::trunc` does. -/
def truncQ (q : ℚ) : ℤ := if 0 ≤ q then ⌊q⌋ else ⌈q⌉

/-- Models `ApproxEq::approx_equal` for `f64` (utility.rs lines 297-302):
equality of the first `dec` decimal digits after truncation. -/
def approxEqual (a b : ℚ) (dec : ℕ) : Prop :=
  truncQ (a * 10 ^ dec) = truncQ (b * 10 ^ dec)

instance (a b : ℚ) (dec : ℕ) : Decidable (approxEqual a b dec) :=
  inferInstanceAs (Decidable (_ = _))

/-- Models `PosPair` (utility.rs line 27); `.1`/`.2` play the role of `.0`/`.1`. -/
abbrev PosPair := ℕ × ℕ

/-- Models `COL_TO_FINGER` (utility.rs line 19). -/
def COL_TO_FINGER : List ℕ := [0, 1, 2, 3, 3, 4, 4, 5, 6, 7]

/-- Models `I_TO_COL` (utility.rs lines 20-24). -/
def I_TO_COL : List ℕ :=
  [0, 1, 2, 3, 3, 4, 4, 5, 6, 7,
   0, 1, 2, 3, 3, 4, 4, 5, 6, 7,
   0, 1, 2, 3, 3, 4, 4, 5, 6, 7]

/-- Models `AFFECTS_SCISSOR` (utility.rs lines 29-33). -/
def AFFECTS_SCISSOR : List Bool :=
  [true,  true,  true,  true,  true,   true,  true,  true,  true,  true,
   true,  true,  false, false, false,  false, false, false, true,  true,
   true,  true,  true,  false, true,   false, false, true,  true,  true]

/-- Models `PosPair::affects_scissor` (utility.rs lines 45-49). -/
def affectsScissor (p : PosPair) : Bool :=
  AFFECTS_SCISSOR.getD p.1 false || AFFECTS_SCISSOR.getD p.2 false

/-- Models `PosPair::qwerty_pos` (utility.rs lines 51-85).  The source
diverges (`todo!()`) on characters outside the qwerty set; the model returns
the out-of-range marker 30 there (no call site reaches that branch). -/
def qwertyPos (c : Char) : ℕ :=
  match c with
  | 'q' => 0  | 'w' => 1  | 'e' => 2  | 'r' => 3  | 't' => 4
  | 'y' => 5  | 'u' => 6  | 'i' => 7  | 'o' => 8  | 'p' => 9
  | 'a' => 10 | 's' => 11 | 'd' => 12 | 'f' => 13 | 'g' => 14
  | 'h' => 15 | 'j' => 16 | 'k' => 17 | 'l' => 18 | ';' => 19
  | 'z' => 20 | 'x' => 21 | 'c' => 22 | 'v' => 23 | 'b' => 24
  | 'n' => 25 | 'm' => 26 | ',' => 27 | '.' => 28 | '/' => 29
  | _ => 30

/-- Models `PosPair::from_qwerty` (utility.rs lines 87-89). -/
def fromQwerty (c1 c2 : Char) : PosPair := (qwertyPos c1, qwertyPos c2)

/-- All 2-combinations of a list in order, as itertools `combinations(2)`
produces them. -/
def combos2 {α : Type} : List α → List (α × α)
  | [] => []
  | x :: xs => (xs.map fun y => (x, y)) ++ combos2 xs

/-- Models `get_sfb_indices` (utility.rs lines 226-241). -/
def getSfbIndices : List PosPair :=
  (([0, 1, 2, 7, 8, 9] : List ℕ).flatMap fun i => combos2 [i, i + 10, i + 20]) ++
  (([0, 2] : List ℕ).flatMap fun i =>
    combos2 [3 + i, 13 + i, 23 + i, 4 + i, 14 + i, 24 + i])

/-- Models `get_scissor_indices` (utility.rs lines 243-277), in source order. -/
def getScissorIndices : List PosPair :=
  [fromQwerty 'q' 's', fromQwerty 'p' 'l',
   fromQwerty 'a' 'x', fromQwerty ';' '.',
   fromQwerty 'e' 'b', fromQwerty 'e' 'g', fromQwerty 'c' 't', fromQwerty 'y' ',',
   fromQwerty 'q' 'x', fromQwerty 'w' 'z', fromQwerty 'w' 'c', fromQwerty 'e' 'x',
   fromQwerty 'r' 'c', fromQwerty 'u' ',', fromQwerty 'i' '.', fromQwerty 'o' ',',
   fromQwerty 'o' '/', fromQwerty 'p' '.', fromQwerty 'f' 'c', fromQwerty 'd' 't',
   fromQwerty 'y' 'k', fromQwerty 'd' 'r', fromQwerty 'u' 'k', fromQwerty 'd' 'b',
   fromQwerty 's' 'r', fromQwerty 's' 't']

/-- Models `KeyboardType` (utility.rs lines 118-124). -/
inductive KeyboardType
  | AnsiAngle
  | IsoAngle
  | RowstagDefault
  | Ortho
  | Colstag
deriving DecidableEq

/-- The per-keyboard-type base effort table of `get_effort_map`
(utility.rs lines 155-181). -/
def effortBase (ktype : KeyboardType) : List ℚ :=
  match ktype with
  | .IsoAngle =>
      [3.0, 2.4, 2.0, 2.2, 2.4,  3.3, 2.2, 2.0, 2.4, 3.0,
       1.8, 1.3, 1.1, 1.0, 2.6,  2.6, 1.0, 1.1, 1.3, 1.8,
       3.3, 2.8, 2.4, 1.8, 2.2,  2.2, 1.8, 2.4, 2.8, 3.3]
  | .AnsiAngle =>
      [3.0, 2.4, 2.0, 2.2, 2.4,  3.3, 2.2, 2.0, 2.4, 3.0,
       1.8, 1.3, 1.1, 1.0, 2.6,  2.6, 1.0, 1.1, 1.3, 1.8,
       3.7, 2.8, 2.4, 1.8, 2.2,  2.2, 1.8, 2.4, 2.8, 3.3]
  | .RowstagDefault =>
      [3.0, 2.4, 2.0, 2.2, 2.4,  3.3, 2.2, 2.0, 2.4, 3.0,
       1.8, 1.3, 1.1, 1.0, 2.6,  2.6, 1.0, 1.1, 1.3, 1.8,
       3.5, 3.0, 2.7, 2.2, 3.7,  2.2, 1.8, 2.4, 2.8, 3.3]
  | .Ortho =>
      [3.0, 2.4, 2.0, 2.2, 3.1,  3.1, 2.2, 2.0, 2.4, 3.0,
       1.7, 1.3, 1.1, 1.0, 2.6,  2.6, 1.0, 1.1, 1.3, 1.7,
       3.2, 2.6, 2.3, 1.6, 3.0,  3.0, 1.6, 2.3, 2.6, 3.2]
  | .Colstag =>
      [3.0, 2.4, 2.0, 2.2, 3.1,  3.1, 2.2, 2.0, 2.4, 3.0,
       1.7, 1.3, 1.1, 1.0, 2.6,  2.6, 1.0, 1.1, 1.3, 1.7,
       3.4, 2.7, 2.2, 1.8, 3.2,  3.2, 1.8, 2.2, 2.7, 3.4]

/-- Models `get_effort_map` (utility.rs lines 152-190): every base value is
shifted by 0.2, divided by 4.5 and scaled by the heatmap weight. -/
def getEffortMap (heatmapWeight : ℚ) (ktype : KeyboardType) : List ℚ :=
  (effortBase ktype).map fun v => (v - 0.2) / 4.5 * heatmapWeight

/-- Models `TrigramPattern` (trigram_patterns.rs, used by generate.rs). -/
inductive TrigramPattern
  | Alternate
  | AlternateSfs
  | Inroll
  | Outroll
  | Onehand
  | Redirect
  | BadRedirect
  | Sfb
  | BadSfb
  | Sft
  | Other
  | Invalid
deriving DecidableEq

/-- The `max_finger_use` weight block (weights.rs, fields used by generate.rs). -/
structure MaxFingerUse where
  pinky : ℚ
  ring : ℚ
  middle : ℚ
  index : ℚ
  penalty : ℚ

/-- The scoring weights consumed by generate.rs. -/
structure Weights where
  heatmap : ℚ
  lateralPenalty : ℚ
  dsfbRatio : ℚ
  dsfbRatio2 : ℚ
  dsfbRatio3 : ℚ
  fspeed : ℚ
  scissors : ℚ
  inrolls : ℚ
  outrolls : ℚ
  onehands : ℚ
  alternates : ℚ
  alternatesSfs : ℚ
  redirects : ℚ
  badRedirects : ℚ
  maxFingerUse : MaxFingerUse

/-- Modelled from the spec: `FastLayout` (layout.rs, not under src/) is "a
fixed array matrix[0..30] of characters" carrying "a cached score"; the
auxiliary char→finger map is "kept in sync with the matrix; it is rebuilt on
swap or recomputed from the matrix on demand", so it is modelled as the
derived function `charToFinger` below. -/
structure FastLayout where
  matrix : List Char
  score : ℚ
deriving DecidableEq

/-- Swap of two list entries; out-of-range indices leave the list unchanged
(the source's `swap_no_bounds` is only reached with valid indices). -/
def swapChars (l : List Char) (i j : ℕ) : List Char :=
  match l[i]?, l[j]? with
  | some a, some b => (l.set i b).set j a
  | _, _ => l

/-- Modelled from the spec: `FastLayout::swap_no_bounds` (layout.rs, not under
src/) exchanges the two matrix entries of a position pair; the char→finger
map is kept in sync (here: derived), and the cached `score` field is not
touched. -/
def swapNoBounds (L : FastLayout) (p : PosPair) : FastLayout :=
  { L with matrix := swapChars L.matrix p.1 p.2 }

/-- Modelled from the spec: the char→finger map satisfies
`char_to_finger(matrix[i]) == COL_TO_FINGER[i % 10]` and is recomputed from
the matrix on demand. -/
def charToFinger (L : FastLayout) (c : Char) : Option ℕ :=
  (L.matrix.findIdx? (· = c)).map fun i => COL_TO_FINGER.getD (i % 10) 0

/-- A trigram, `[char; 3]`. -/
abbrev Trigram := Char × Char × Char

/-- Models `[char; 3]::contains`. -/
def trigramHas (t : Trigram) (c : Char) : Bool :=
  t.1 = c || t.2.1 = c || t.2.2 = c

/-- Models `TrigramData`: ordered list of (trigram, frequency). -/
abbrev TrigramData := List (Trigram × ℚ)

/-- Models the `LayoutGeneration` engine struct (generate.rs lines 186-200).
The n-gram tables are total functions (hash-map lookup with `unwrap_or(0)`),
`fspeed_vals`, `effort_map` and the derived tables are fields exactly as in
the source, and the trigram classifier (`FastLayout::get_trigram_pattern`,
not under src/) is, following the spec, an arbitrary pure function of the
trigram and the layout matrix. -/
structure LayoutGeneration where
  characters : Char → ℚ
  bigrams : Char → Char → ℚ
  skipgrams : Char → Char → ℚ
  skipgrams2 : Char → Char → ℚ
  skipgrams3 : Char → Char → ℚ
  trigrams : TrigramData
  fspeedVals : List (PosPair × ℚ)
  effortMap : List ℚ
  weightedBigrams : Char → Char → ℚ
  perCharTrigrams : Char → Char → TrigramData
  weights : Weights
  classify : Trigram → List Char → TrigramPattern

/-- Models `TrigramStats` (generate.rs lines 24-37). -/
structure TrigramStats where
  alternates : ℚ := 0
  alternatesSfs : ℚ := 0
  inrolls : ℚ := 0
  outrolls : ℚ := 0
  onehands : ℚ := 0
  redirects : ℚ := 0
  badRedirects : ℚ := 0
  sfbs : ℚ := 0
  badSfbs : ℚ := 0
  sfts : ℚ := 0
  other : ℚ := 0
  invalid : ℚ := 0

/-- One step of the frequency accumulation inside `trigram_score_iter`
(generate.rs lines 460-471): only the seven score-bearing patterns are
accumulated. -/
def trigramScoreStep (g : LayoutGeneration) (L : FastLayout)
    (freqs : TrigramStats) (tf : Trigram × ℚ) : TrigramStats :=
  match g.classify tf.1 L.matrix with
  | .Alternate => { freqs with alternates := freqs.alternates + tf.2 }
  | .AlternateSfs => { freqs with alternatesSfs := freqs.alternatesSfs + tf.2 }
  | .Inroll => { freqs with inrolls := freqs.inrolls + tf.2 }
  | .Outroll => { freqs with outrolls := freqs.outrolls + tf.2 }
  | .Onehand => { freqs with onehands := freqs.onehands + tf.2 }
  | .Redirect => { freqs with redirects := freqs.redirects + tf.2 }
  | .BadRedirect => { freqs with badRedirects := freqs.badRedirects + tf.2 }
  | _ => freqs

/-- The weighted combination at the end of `trigram_score_iter`
(generate.rs lines 473-481). -/
def trigramWeightSum (g : LayoutGeneration) (freqs : TrigramStats) : ℚ :=
  g.weights.inrolls * freqs.inrolls
    + g.weights.outrolls * freqs.outrolls
    + g.weights.onehands * freqs.onehands
    + g.weights.alternates * freqs.alternates
    + g.weights.alternatesSfs * freqs.alternatesSfs
    - g.weights.redirects * freqs.redirects
    - g.weights.badRedirects * freqs.badRedirects

/-- Models `trigram_score_iter` (generate.rs lines 455-482). -/
def trigramScoreIter (g : LayoutGeneration) (L : FastLayout) (ts : TrigramData) : ℚ :=
  trigramWeightSum g (ts.foldl (trigramScoreStep g L) {})

/-- Models `trigram_char_score` (generate.rs lines 484-493); a key absent
from the per-char map behaves as the empty list, matching the `else 0.0`
branch. -/
def trigramCharScore (g : LayoutGeneration) (L : FastLayout) (pos : PosPair) : ℚ :=
  trigramScoreIter g L
    (g.perCharTrigrams (L.matrix.getD pos.1 ' ') (L.matrix.getD pos.2 ' '))

/-- Models `scissor_score` (generate.rs lines 495-505). -/
def scissorScore (g : LayoutGeneration) (L : FastLayout) : ℚ :=
  (getScissorIndices.map fun p =>
    g.bigrams (L.matrix.getD p.1 ' ') (L.matrix.getD p.2 ' ')
      + g.bigrams (L.matrix.getD p.2 ' ') (L.matrix.getD p.1 ' ')).sum
    * g.weights.scissors

/-- The positions a usage column reads, following the `match` of `col_usage`
(generate.rs lines 509-529); the `unreachable_unchecked` branch is the empty
list. -/
def usagePositions (col : ℕ) : List ℕ :=
  match col with
  | 0 => [0, 10, 20]
  | 1 => [1, 11, 21]
  | 2 => [2, 12, 22]
  | 3 => [3, 13, 23, 4, 14, 24]
  | 4 => [5, 15, 25, 6, 16, 26]
  | 5 => [7, 17, 27]
  | 6 => [8, 18, 28]
  | 7 => [9, 19, 29]
  | _ => []

/-- The per-finger usage cap selected by `col_usage`
(generate.rs lines 531-537). -/
def fingerCap (g : LayoutGeneration) (col : ℕ) : ℚ :=
  match col with
  | 0 => g.weights.maxFingerUse.pinky
  | 7 => g.weights.maxFingerUse.pinky
  | 1 => g.weights.maxFingerUse.ring
  | 6 => g.weights.maxFingerUse.ring
  | 2 => g.weights.maxFingerUse.middle
  | 5 => g.weights.maxFingerUse.middle
  | 3 => g.weights.maxFingerUse.index
  | 4 => g.weights.maxFingerUse.index
  | _ => 0

/-- Models `col_usage` (generate.rs lines 507-538). -/
def colUsage (g : LayoutGeneration) (L : FastLayout) (col : ℕ) : ℚ :=
  let res := ((usagePositions col).map fun p =>
    g.characters (L.matrix.getD p ' ')).sum
  g.weights.maxFingerUse.penalty * max (res - fingerCap g col) 0

/-- Models `pair_fspeed` (generate.rs lines 540-549). -/
def pairFspeed (g : LayoutGeneration) (L : FastLayout) (pair : PosPair) (dist : ℚ) : ℚ :=
  g.weightedBigrams (L.matrix.getD pair.1 ' ') (L.matrix.getD pair.2 ' ') * dist
    + g.weightedBigrams (L.matrix.getD pair.2 ' ') (L.matrix.getD pair.1 ' ') * dist

/-- Models `col_to_start_len` (generate.rs lines 551-554). -/
def colToStartLen (col : ℕ) : ℕ × ℕ :=
  ([(0, 3), (3, 3), (6, 3), (18, 15), (33, 15), (9, 3), (12, 3), (15, 3)] :
    List (ℕ × ℕ)).getD col (0, 0)

/-- Models `col_fspeed` (generate.rs lines 556-567). -/
def colFspeed (g : LayoutGeneration) (L : FastLayout) (col : ℕ) : ℚ :=
  (((g.fspeedVals.drop (colToStartLen col).1).take (colToStartLen col).2).map
    fun pd => pairFspeed g L pd.1 pd.2).sum

/-- Models `char_effort` (generate.rs lines 569-575). -/
def charEffort (g : LayoutGeneration) (L : FastLayout) (i : ℕ) : ℚ :=
  g.characters (L.matrix.getD i ' ') * g.effortMap.getD i 0

/-- Models `LayoutCache` (generate.rs lines 141-158). -/
structure LayoutCache where
  effort : List ℚ
  effortTotal : ℚ
  scissors : ℚ
  usage : List ℚ
  usageTotal : ℚ
  fspeed : List ℚ
  fspeedTotal : ℚ
  trigramsTotal : ℚ
  totalScore : ℚ
deriving DecidableEq

/-- Models the method `LayoutCache::total_score` (generate.rs lines 161-163). -/
def cacheTotal (c : LayoutCache) : ℚ :=
  c.trigramsTotal - c.scissors - c.effortTotal - c.usageTotal - c.fspeedTotal

/-- Models `initialize_cache` (generate.rs lines 577-599).  Note the
hard-coded `take(1000)` for `trigrams_total` (line 594). -/
def initCache (g : LayoutGeneration) (L : FastLayout) : LayoutCache :=
  let effort := (List.range 30).map (charEffort g L)
  let usage := (List.range 8).map (colUsage g L)
  let fspeed := (List.range 8).map (colFspeed g L)
  let c : LayoutCache :=
    { effort := effort
      effortTotal := effort.sum
      scissors := scissorScore g L
      usage := usage
      usageTotal := usage.sum
      fspeed := fspeed
      fspeedTotal := fspeed.sum
      trigramsTotal := trigramScoreIter g L (g.trigrams.take 1000)
      totalScore := 0 }
  { c with totalScore := cacheTotal c }

/-- The raw decomposed score `trigram_score - effort - fspeed_usage - scissors`
of `score` (generate.rs lines 337-350), before the sign-inversion block.
The matrix length is fixed at 30 (`Matrix<T> = [T; 30]`). -/
def scoreBase (g : LayoutGeneration) (L : FastLayout) : ℚ :=
  let effort := ∑ i ∈ Finset.range 30, charEffort g L i
  let fspeedUsage := ∑ col ∈ Finset.range 8, (colUsage g L col + colFspeed g L col)
  let scissors := scissorScore g L
  let trigramScore := trigramScoreIter g L g.trigrams
  trigramScore - effort - fspeedUsage - scissors

/-- The conditional negation `score *= if score > 0. { -1. } else { 1. }`
(generate.rs lines 377 and 394). -/
def foldPositive (s : ℚ) : ℚ := if s > 0 then -s else s

/-- A stable ascending sort of a boolean vector, as `Vec<bool>::sort` orders
`false` before `true` (used on `nrts`, generate.rs line 387). -/
def sortBools (l : List Bool) : List Bool :=
  l.filter (fun b => !b) ++ l.filter (fun b => b)

/-- Models `score` (generate.rs lines 336-398), including the two
constraint-encoding sign-inversion blocks over the fingers of
e,t,a,o,i,n,s,h,r,d,l,u. -/
def score (g : LayoutGeneration) (L : FastLayout) : ℚ :=
  let s0 := scoreBase g L
  match charToFinger L 'e', charToFinger L 't', charToFinger L 'a',
        charToFinger L 'o', charToFinger L 'i', charToFinger L 'n',
        charToFinger L 's', charToFinger L 'h', charToFinger L 'r',
        charToFinger L 'd', charToFinger L 'l', charToFinger L 'u' with
  | some e, some _t, some a, some o, some i, some n,
    some _s, some h, some r, some _d, some l, some _u =>
      let s1 := if (¬ (e = 2 ∨ e = 5)) ∨ (r = l ∧ l = h) then foldPositive s0 else s0
      let nrts : List Bool :=
        [decide (e < 4), decide (a < 4), decide (o < 4), decide (i < 4),
         decide ((n < 4 ∨ h < 4) ∧ ((n < 4 ∧ 4 ≤ h) ∨ (4 ≤ n ∧ h < 4)))]
      match sortBools nrts with
      | [true, true, true, true, false] => s1
      | [false, true, true, true, true] => s1
      | [false, false, false, false, true] => s1
      | [true, false, false, false, false] => s1
      | _ => foldPositive s1
  | _, _, _, _, _, _, _, _, _, _, _, _ => s0

/-- Models `score_swap_cached` (generate.rs lines 601-662) as a state-passing
function: the returned layout is the layout as the function leaves it (the
source swaps in place and swaps back in both branches), and the returned
rational is the returned score.  The cache is taken by shared reference in
the source and is never written. -/
def scoreSwapCachedSt (g : LayoutGeneration) (L : FastLayout) (swap : PosPair)
    (cache : LayoutCache) : FastLayout × ℚ :=
  let L1 := swapNoBounds L swap
  let i1 := swap.1
  let i2 := swap.2
  let col1 := I_TO_COL.getD i1 0
  let col2 := I_TO_COL.getD i2 0
  let fspeedScore :=
    if col1 = col2 then
      cache.fspeedTotal - cache.fspeed.getD col1 0 + colFspeed g L1 col1
    else
      cache.fspeedTotal - cache.fspeed.getD col1 0 - cache.fspeed.getD col2 0
        + colFspeed g L1 col1 + colFspeed g L1 col2
  let usageScore :=
    if col1 = col2 then
      cache.usageTotal - cache.usage.getD col1 0 + colUsage g L1 col1
    else
      cache.usageTotal - cache.usage.getD col1 0 - cache.usage.getD col2 0
        + colUsage g L1 col1 + colUsage g L1 col2
  let effortScore := cache.effortTotal - cache.effort.getD i1 0 - cache.effort.getD i2 0
    + charEffort g L1 i1 + charEffort g L1 i2
  let scissorsScore := if affectsScissor swap then scissorScore g L1 else cache.scissors
  if cache.totalScore < F64MAX then
    let trigramsEnd := trigramCharScore g L1 swap
    let L2 := swapNoBounds L1 swap
    let trigramsStart := trigramCharScore g L2 swap
    let trigramsScore := cache.trigramsTotal - trigramsStart + trigramsEnd
    (L2, trigramsScore - scissorsScore - effortScore - usageScore - fspeedScore)
  else
    (swapNoBounds L1 swap, SENTINEL)

/-- The score returned by `score_swap_cached`. -/
def scoreSwapCached (g : LayoutGeneration) (L : FastLayout) (swap : PosPair)
    (cache : LayoutCache) : ℚ :=
  (scoreSwapCachedSt g L swap cache).2

/-- Models `accept_swap` (generate.rs lines 664-728): returns the layout
after the swap and the updated cache. -/
def acceptSwap (g : LayoutGeneration) (L : FastLayout) (swap : PosPair)
    (cache : LayoutCache) : FastLayout × LayoutCache :=
  let trigramsStart := trigramCharScore g L swap
  let L1 := swapNoBounds L swap
  let i1 := swap.1
  let i2 := swap.2
  let col1 := I_TO_COL.getD i1 0
  let col2 := I_TO_COL.getD i2 0
  let fspeedPair :=
    if col1 = col2 then
      let fspeed := colFspeed g L1 col1
      (cache.fspeed.set col1 fspeed,
       cache.fspeedTotal - cache.fspeed.getD col1 0 + fspeed)
    else
      let fspeed1 := colFspeed g L1 col1
      let fspeed2 := colFspeed g L1 col2
      ((cache.fspeed.set col1 fspeed1).set col2 fspeed2,
       cache.fspeedTotal - cache.fspeed.getD col1 0 - cache.fspeed.getD col2 0
         + fspeed1 + fspeed2)
  let usagePair :=
    if col1 = col2 then
      let usage := colUsage g L1 col1
      (cache.usage.set col1 usage,
       cache.usageTotal - cache.usage.getD col1 0 + usage)
    else
      let usage1 := colUsage g L1 col1
      let usage2 := colUsage g L1 col2
      ((cache.usage.set col1 usage1).set col2 usage2,
       cache.usageTotal - cache.usage.getD col1 0 - cache.usage.getD col2 0
         + usage1 + usage2)
  let effort1 := charEffort g L1 i1
  let effort2 := charEffort g L1 i2
  let effortTotal := cache.effortTotal - cache.effort.getD i1 0 - cache.effort.getD i2 0
    + effort1 + effort2
  let effortList := (cache.effort.set i1 effort1).set i2 effort2
  let trigramsEnd := trigramCharScore g L1 swap
  let trigramsTotal := cache.trigramsTotal - trigramsStart + trigramsEnd
  let scissors := if affectsScissor swap then scissorScore g L1 else cache.scissors
  let c : LayoutCache :=
    { effort := effortList
      effortTotal := effortTotal
      scissors := scissors
      usage := usagePair.1
      usageTotal := usagePair.2
      fspeed := fspeedPair.1
      fspeedTotal := fspeedPair.2
      trigramsTotal := trigramsTotal
      totalScore := 0 }
  (L1, { c with totalScore := cacheTotal c })

/-- Models `best_swap_cached` (generate.rs lines 730-746). -/
def bestSwapCached (g : LayoutGeneration) (L : FastLayout) (cache : LayoutCache)
    (currentBestScore : Option ℚ) (possibleSwaps : List PosPair) :
    Option PosPair × ℚ :=
  possibleSwaps.foldl
    (fun acc swap =>
      let score := scoreSwapCached g L swap cache
      if score > acc.2 then (some swap, score) else acc)
    (none, currentBestScore.getD (F64MIN / 2))

/-- The loop body of `optimize_cached` (generate.rs lines 753-757) as a step
function on (layout, cache, running best score): `none` means the
`while let` pattern failed (no swap beat the running best). -/
def optStep (g : LayoutGeneration) (possibleSwaps : List PosPair)
    (st : FastLayout × LayoutCache × ℚ) : Option (FastLayout × LayoutCache × ℚ) :=
  match bestSwapCached g st.1 st.2.1 (some st.2.2) possibleSwaps with
  | (some bestSwap, newScore) =>
      let r := acceptSwap g st.1 bestSwap st.2.1
      some (r.1, r.2, newScore)
  | (none, _) => none

/-- Fuel-indexed iteration of the `optimize_cached` loop; with enough fuel
this is exactly `optimize_cached` (generate.rs lines 748-759), which starts
the running best at `f64::MIN / 2.0`. -/
def optimizeCachedGo (g : LayoutGeneration) (possibleSwaps : List PosPair) :
    ℕ → FastLayout × LayoutCache × ℚ → FastLayout × LayoutCache × ℚ
  | 0, st => st
  | fuel + 1, st =>
      match optStep g possibleSwaps st with
      | some st1 => optimizeCachedGo g possibleSwaps fuel st1
      | none => st

/-- Models `optimize_cached` with the given iteration fuel. -/
def optimizeCachedF (g : LayoutGeneration) (possibleSwaps : List PosPair)
    (fuel : ℕ) (L : FastLayout) (cache : LayoutCache) :
    FastLayout × LayoutCache × ℚ :=
  optimizeCachedGo g possibleSwaps fuel (L, cache, F64MIN / 2)

/-- Models `COLS` (generate.rs line 168). -/
def COLS : List ℕ := [0, 1, 2, 7, 8, 9]

/-- The mutable state threaded through `col_perms`
(generate.rs lines 773-797): current layout, cache, best layout so far and
best score so far. -/
structure ColState where
  layout : FastLayout
  cache : LayoutCache
  best : FastLayout
  bestScore : ℚ

/-- Models `col_perms` (generate.rs lines 773-797), Heap's algorithm over the
six columns implemented with `accept_swap`; the `k = 1` leaf records the
cache's `total_score` field when it beats the best so far. -/
def colPerms (g : LayoutGeneration) : ℕ → ColState → ColState
  | 0, st => st
  | 1, st =>
      if st.cache.totalScore > st.bestScore then
        { st with best := st.layout, bestScore := st.cache.totalScore }
      else st
  | k + 2, st =>
      (List.range (k + 2)).foldl
        (fun st i =>
          let st1 := colPerms g (k + 1) st
          let pair : PosPair :=
            if (k + 2) % 2 = 0 then (COLS.getD i 0, COLS.getD (k + 1) 0)
            else (COLS.getD 0 0, COLS.getD (k + 1) 0)
          let r := acceptSwap g st1.layout pair st1.cache
          { st1 with layout := r.1, cache := r.2 })
        st
termination_by k _ => k

/-- Modelled from the spec: `FastLayout::swap_indexes` (layout.rs, not under
src/) swaps "every key in the index columns' two sub-columns ... with its
sibling (a hand-mirror of index layout)", i.e. the column pairs (3,4) and
(5,6) position-wise. -/
def swapIndexes (L : FastLayout) : FastLayout :=
  let ps : List PosPair := [(3, 4), (13, 14), (23, 24), (5, 6), (15, 16), (25, 26)]
  ps.foldl (fun L p => swapNoBounds L p) L

/-- Models `optimize_cols` (generate.rs lines 761-771): run the 720-leaf
column permutation, mirror the index columns, run it again, and return the
best layout found with its score written into the `score` field, together
with the cache as the permutations left it. -/
def optimizeCols (g : LayoutGeneration) (L : FastLayout) (cache : LayoutCache)
    (score? : Option ℚ) : FastLayout × LayoutCache :=
  let best0 := score?.getD cache.totalScore
  let st1 := colPerms g 6 ⟨L, cache, L, best0⟩
  let Lx := swapIndexes st1.layout
  let st2 := colPerms g 6 ⟨Lx, st1.cache, st1.best, st1.bestScore⟩
  ({ st2.best with score := st2.bestScore }, st2.cache)

/-- Fuel-indexed model of the `while with_col_score < optimized_score` loop
of `optimize` (generate.rs lines 808-820).  `innerFuel` is the fuel handed
to each `optimize_cached` call; exhausted outer fuel finishes the function
the way the source does after the loop (`layout.score = optimized_score`). -/
def optimizeGo (g : LayoutGeneration) (possibleSwaps : List PosPair)
    (innerFuel : ℕ) :
    ℕ → FastLayout → LayoutCache → ℚ → ℚ → FastLayout × LayoutCache
  | 0, L, cache, _, optimizedScore => ({ L with score := optimizedScore }, cache)
  | outerFuel + 1, L, cache, withColScore, optimizedScore =>
      if withColScore < optimizedScore then
        let r := optimizeCachedGo g possibleSwaps innerFuel (L, cache, F64MIN / 2)
        let rc := optimizeCols g r.1 r.2.1 (some r.2.2)
        optimizeGo g possibleSwaps innerFuel outerFuel rc.1 rc.2 rc.1.score r.2.2
      else ({ L with score := optimizedScore }, cache)

/-- Models `optimize` (generate.rs lines 808-820) with the given fuels. -/
def optimizeF (g : LayoutGeneration) (possibleSwaps : List PosPair)
    (outerFuel innerFuel : ℕ) (L : FastLayout) (cache : LayoutCache) :
    FastLayout × LayoutCache :=
  optimizeGo g possibleSwaps innerFuel outerFuel L cache F64MIN (F64MIN / 2)

/-- The number of times the `optimize` loop body executes within the given
fuel (the loop of generate.rs lines 812-816). -/
def optimizeIterCount (g : LayoutGeneration) (possibleSwaps : List PosPair)
    (innerFuel : ℕ) :
    ℕ → FastLayout → LayoutCache → ℚ → ℚ → ℕ
  | 0, _, _, _, _ => 0
  | outerFuel + 1, L, cache, withColScore, optimizedScore =>
      if withColScore < optimizedScore then
        let r := optimizeCachedGo g possibleSwaps innerFuel (L, cache, F64MIN / 2)
        let rc := optimizeCols g r.1 r.2.1 (some r.2.2)
        1 + optimizeIterCount g possibleSwaps innerFuel outerFuel rc.1 rc.2
          rc.1.score r.2.2
      else 0

/-- Models the selector `match` of `bigram_percent`
(generate.rs lines 297-303); the `panic!` arm is `none`. -/
def bigramPercentData (g : LayoutGeneration) (bigramType : String) :
    Option (Char → Char → ℚ) :=
  if bigramType ∈ ["bigram", "bigrams", "sfb", "sfbs"] then some g.bigrams
  else if bigramType ∈ ["skipgram", "skipgrams", "dsfb", "dsfbs"] then
    some g.skipgrams
  else if bigramType ∈ ["skipgram2", "skipgrams2", "dsfb2", "dsfbs2"] then
    some g.skipgrams2
  else if bigramType ∈ ["skipgram3", "skipgrams3", "dsfb3", "dsfbs3"] then
    some g.skipgrams3
  else none

/-- Models `bigram_percent` (generate.rs lines 296-313): `none` models the
`panic!` on an unrecognized selector, `some` carries the sum over the 48
`fspeed_vals` position pairs in both directions. -/
def bigramPercent (g : LayoutGeneration) (L : FastLayout) (bigramType : String) :
    Option ℚ :=
  (bigramPercentData g bigramType).map fun data =>
    (g.fspeedVals.map fun pd =>
      data (L.matrix.getD pd.1.1 ' ') (L.matrix.getD pd.1.2 ' ')
        + data (L.matrix.getD pd.1.2 ' ') (L.matrix.getD pd.1.1 ' ')).sum

/-- Models the `LanguageData` bundle (language_data.rs, consumed read-only by
generate.rs): per-character frequencies as an association list (so that the
character set `possible_chars` of `LayoutGeneration::new` is recoverable),
n-gram tables as total lookup functions, and the ordered trigram list. -/
structure LanguageData where
  characters : List (Char × ℚ)
  bigrams : Char → Char → ℚ
  skipgrams : Char → Char → ℚ
  skipgrams2 : Char → Char → ℚ
  skipgrams3 : Char → Char → ℚ
  trigrams : TrigramData

/-- The `possible_chars` list of `LayoutGeneration::new`
(generate.rs lines 219-221). -/
def possibleChars (data : LanguageData) : List Char :=
  data.characters.map Prod.fst

/-- Models `LayoutGeneration::weighted_bigrams` (generate.rs lines 400-416)
as the total function the stored map denotes: keys run over
`possible × possible` and absent keys (including the filtered zero entries)
look up as 0. -/
def weightedBigramsF (data : LanguageData) (w : Weights) : Char → Char → ℚ :=
  fun c1 c2 =>
    if c1 ∈ possibleChars data ∧ c2 ∈ possibleChars data then
      (data.bigrams c1 c2 + data.skipgrams c1 c2 * w.dsfbRatio
        + data.skipgrams2 c1 c2 * w.dsfbRatio2
        + data.skipgrams3 c1 c2 * w.dsfbRatio3) * w.fspeed
    else 0

/-- Models `per_char_trigrams` (generate.rs lines 418-453) as the total
function the stored map denotes: the trigram list is truncated to
`trigram_precision`, each key pair unions the trigrams containing either
character with the longer side first and duplicates removed from the shorter
side; keys outside `possible × possible` look up as the empty list. -/
def perCharTrigramsF (trigrams : TrigramData) (possible : List Char)
    (trigramPrecision : ℕ) : Char → Char → TrigramData :=
  fun c1 c2 =>
    if c1 ∈ possible ∧ c2 ∈ possible then
      let nTrigrams := trigrams.take trigramPrecision
      let v1 := nTrigrams.filter fun tf => trigramHas tf.1 c1
      let v2 := nTrigrams.filter fun tf => trigramHas tf.1 c2
      let bigSmallC := if v2.length ≤ v1.length then (v1, v2, c1) else (v2, v1, c2)
      bigSmallC.1 ++ bigSmallC.2.1.filter fun tf => !(trigramHas tf.1 bigSmallC.2.2)
    else []

/-- Models `LayoutGeneration::new` (generate.rs lines 203-246) up to the
inputs the spec leaves external: the language data bundle and config weights
are parameters, and the 48 `fspeed_vals` distances of `get_distances`
(transcendental powers of 0.65, utility.rs lines 200-224) are passed in as a
list so that `fspeed_vals = get_sfb_indices().zip(distances)` exactly as
`get_fspeed` builds it. -/
def mkEngine (data : LanguageData) (w : Weights) (ktype : KeyboardType)
    (fspeedDists : List ℚ) (trigramPrecision : ℕ)
    (classify : Trigram → List Char → TrigramPattern) : LayoutGeneration :=
  { characters := fun c => (data.characters.lookup c).getD 0
    bigrams := data.bigrams
    skipgrams := data.skipgrams
    skipgrams2 := data.skipgrams2
    skipgrams3 := data.skipgrams3
    trigrams := data.trigrams
    fspeedVals := getSfbIndices.zip fspeedDists
    effortMap := getEffortMap w.heatmap ktype
    weightedBigrams := weightedBigramsF data w
    perCharTrigrams := perCharTrigramsF data.trigrams (possibleChars data)
      trigramPrecision
    weights := w
    classify := classify }

theorem set_getD_self {α : Type} (l : List α) (i : ℕ) (d : α) (h : i < l.length) :
    l.set i (l.getD i d) = l := by
  induction l generalizing i with
  | nil => simp at h
  | cons x xs ih =>
      cases i with
      | zero => simp [List.getD]
      | succ n =>
          simp only [List.set_cons_succ, List.getD_cons_succ]
          rw [ih n (by simpa using h)]

theorem set_self_of_getElem {α : Type} (l : List α) (i : ℕ) (a : α)
    (h : l[i]? = some a) : l.set i a = l := by
  have hlen : i < l.length := by
    by_contra hc
    rw [List.getElem?_eq_none (by omega)] at h
    exact Option.noConfusion h
  have hd := set_getD_self l i a hlen
  rwa [List.getD_eq_getElem?_getD, h] at hd

theorem swapChars_none_left (l : List Char) (i j : ℕ) (h : l[i]? = none) :
    swapChars l i j = l := by
  unfold swapChars
  rw [h]

theorem swapChars_none_right (l : List Char) (i j : ℕ) (h : l[j]? = none) :
    swapChars l i j = l := by
  unfold swapChars
  rw [h]
  cases l[i]? <;> rfl

theorem swapChars_eq (l : List Char) (i j : ℕ) (a b : Char)
    (ha : l[i]? = some a) (hb : l[j]? = some b) :
    swapChars l i j = (l.set i b).set j a := by
  unfold swapChars
  rw [ha, hb]

theorem swapChars_involutive (l : List Char) (i j : ℕ) :
    swapChars (swapChars l i j) i j = l := by
  cases hi : l[i]? with
  | none => rw [swapChars_none_left l i j hi, swapChars_none_left l i j hi]
  | some a =>
      cases hj : l[j]? with
      | none => rw [swapChars_none_right l i j hj, swapChars_none_right l i j hj]
      | some b =>
          have hil : i < l.length := by
            by_contra hc
            rw [List.getElem?_eq_none (by omega)] at hi
            exact Option.noConfusion hi
          have hjl : j < l.length := by
            by_contra hc
            rw [List.getElem?_eq_none (by omega)] at hj
            exact Option.noConfusion hj
          rw [swapChars_eq l i j a b hi hj]
          by_cases hij : i = j
          · subst hij
            have hab : b = a := by rw [hi] at hj; exact (Option.some.inj hj).symm
            subst hab
            rw [List.set_set]
            rw [set_self_of_getElem l i b hi]
            rw [swapChars_eq l i i b b hi hi, List.set_set,
              set_self_of_getElem l i b hi]
          · have hm1 : ((l.set i b).set j a)[i]? = some b := by
              rw [List.getElem?_set_ne (by omega : j ≠ i)]
              rw [List.getElem?_set_self hil]
            have hm2 : ((l.set i b).set j a)[j]? = some a := by
              rw [List.getElem?_set_self (by simpa using hjl)]
            rw [swapChars_eq _ i j b a hm1 hm2]
            have e1 : ((l.set i b).set j a).set i a = ((l.set i b).set i a).set j a :=
              List.set_comm a a (l.set i b) (by omega : j ≠ i)
            have e2 : (l.set i b).set i a = l.set i a := List.set_set b a l i
            calc (((l.set i b).set j a).set i a).set j b
                = (((l.set i b).set i a).set j a).set j b := by rw [e1]
              _ = ((l.set i a).set j a).set j b := by rw [e2]
              _ = (l.set i a).set j b := by rw [List.set_set]
              _ = l.set j b := by rw [set_self_of_getElem l i a hi]
              _ = l := set_self_of_getElem l j b hj

theorem swapNoBounds_involutive (L : FastLayout) (p : PosPair) :
    swapNoBounds (swapNoBounds L p) p = L := by
  unfold swapNoBounds
  simp [swapChars_involutive]

theorem perm_set_cons {α : Type} (xs : List α) (m : ℕ) (x b : α)
    (h : xs[m]? = some b) : (x :: xs).Perm (b :: xs.set m x) := by
  induction xs generalizing m with
  | nil => simp at h
  | cons y t ih =>
      cases m with
      | zero =>
          have hb : y = b := by simpa using h
          subst hb
          simpa using List.Perm.swap y x t
      | succ n =>
          have ht : t[n]? = some b := by simpa using h
          have step := ih n ht
          have s1 : (x :: y :: t).Perm (y :: x :: t) := List.Perm.swap y x t
          have s2 : (y :: x :: t).Perm (y :: b :: t.set n x) := List.Perm.cons y step
          have s3 : (y :: b :: t.set n x).Perm (b :: y :: t.set n x) :=
            List.Perm.swap b y (t.set n x)
          exact (s1.trans s2).trans s3

theorem swapChars_perm (l : List Char) (i j : ℕ) : (swapChars l i j).Perm l := by
  induction l generalizing i j with
  | nil =>
      have : swapChars [] i j = [] := swapChars_none_left [] i j (by simp)
      rw [this]
  | cons x xs ih =>
      cases i with
      | zero =>
          cases j with
          | zero =>
              cases hj : (x :: xs)[0]? with
              | none => simp at hj
              | some b =>
                  have hb : b = x := by simpa using hj.symm
                  subst hb
                  rw [swapChars_eq _ 0 0 b b hj hj]
                  simp
          | succ n =>
              cases hn : xs[n]? with
              | none =>
                  rw [swapChars_none_right _ 0 (n + 1) (by simpa using hn)]
              | some b =>
                  rw [swapChars_eq (x :: xs) 0 (n + 1) x b (by simp)
                    (by simpa using hn)]
                  simpa using (perm_set_cons xs n x b hn).symm
      | succ m =>
          cases j with
          | zero =>
              cases hm : xs[m]? with
              | none =>
                  rw [swapChars_none_left _ (m + 1) 0 (by simpa using hm)]
              | some a =>
                  rw [swapChars_eq (x :: xs) (m + 1) 0 a x (by simpa using hm)
                    (by simp)]
                  simpa using (perm_set_cons xs m x a hm).symm
          | succ n =>
              cases hm : xs[m]? with
              | none =>
                  rw [swapChars_none_left _ (m + 1) (n + 1) (by simpa using hm)]
              | some a =>
                  cases hn : xs[n]? with
                  | none =>
                      rw [swapChars_none_right _ (m + 1) (n + 1)
                        (by simpa using hn)]
                  | some b =>
                      rw [swapChars_eq (x :: xs) (m + 1) (n + 1) a b
                        (by simpa using hm) (by simpa using hn)]
                      have : swapChars xs m n = (xs.set m b).set n a :=
                        swapChars_eq xs m n a b hm hn
                      simpa [List.set_cons_succ] using
                        List.Perm.cons x (this ▸ ih m n)

theorem swapChars_length (l : List Char) (i j : ℕ) :
    (swapChars l i j).length = l.length := by
  unfold swapChars
  cases l[i]? <;> cases l[j]? <;> simp

theorem swapChars_getD_ne (l : List Char) (i j k : ℕ) (d : Char)
    (h1 : k ≠ i) (h2 : k ≠ j) : (swapChars l i j).getD k d = l.getD k d := by
  unfold swapChars
  cases l[i]? with
  | none => rfl
  | some a =>
      cases l[j]? with
      | none => rfl
      | some b =>
          simp only [List.getD_eq_getElem?_getD]
          rw [List.getElem?_set_ne (by omega : j ≠ k),
            List.getElem?_set_ne (by omega : i ≠ k)]

theorem swapChars_getD_left (l : List Char) (i j : ℕ) (d : Char)
    (hi : i < l.length) (hj : j < l.length) :
    (swapChars l i j).getD i d = l.getD j d := by
  have hi' : l[i]? = some (l.getD i d) := by
    rw [List.getD_eq_getElem?_getD, List.getElem?_eq_getElem hi]
    simp
  have hj' : l[j]? = some (l.getD j d) := by
    rw [List.getD_eq_getElem?_getD, List.getElem?_eq_getElem hj]
    simp
  rw [swapChars_eq l i j _ _ hi' hj']
  by_cases hij : i = j
  · subst hij
    simp only [List.getD_eq_getElem?_getD]
    rw [List.getElem?_set_self (by simpa using hi)]
    rfl
  · simp only [List.getD_eq_getElem?_getD]
    rw [List.getElem?_set_ne (by omega : j ≠ i),
      List.getElem?_set_self hi]
    rfl

theorem swapChars_getD_right (l : List Char) (i j : ℕ) (d : Char)
    (hi : i < l.length) (hj : j < l.length) :
    (swapChars l i j).getD j d = l.getD i d := by
  have hi' : l[i]? = some (l.getD i d) := by
    rw [List.getD_eq_getElem?_getD, List.getElem?_eq_getElem hi]
    simp
  have hj' : l[j]? = some (l.getD j d) := by
    rw [List.getD_eq_getElem?_getD, List.getElem?_eq_getElem hj]
    simp
  rw [swapChars_eq l i j _ _ hi' hj']
  simp only [List.getD_eq_getElem?_getD]
  rw [List.getElem?_set_self (by simpa using hj)]
  rfl

theorem sum_map_range (n : ℕ) (f : ℕ → ℚ) :
    ((List.range n).map f).sum = ∑ i ∈ Finset.range n, f i := by
  induction n with
  | zero => simp
  | succ m ih =>
      rw [List.range_succ, List.map_append, List.sum_append,
        Finset.sum_range_succ, ih]
      simp

/-- The per-pattern score contribution of `trigram_score_iter`: +weight for
the five rewarded patterns, -weight for the two penalized ones, 0 otherwise. -/
def patWeight (g : LayoutGeneration) : TrigramPattern → ℚ
  | .Alternate => g.weights.alternates
  | .AlternateSfs => g.weights.alternatesSfs
  | .Inroll => g.weights.inrolls
  | .Outroll => g.weights.outrolls
  | .Onehand => g.weights.onehands
  | .Redirect => -g.weights.redirects
  | .BadRedirect => -g.weights.badRedirects
  | _ => 0

theorem trigramWeightSum_step (g : LayoutGeneration) (L : FastLayout)
    (freqs : TrigramStats) (tf : Trigram × ℚ) :
    trigramWeightSum g (trigramScoreStep g L freqs tf) =
      trigramWeightSum g freqs + patWeight g (g.classify tf.1 L.matrix) * tf.2 := by
  unfold trigramScoreStep patWeight trigramWeightSum
  cases g.classify tf.1 L.matrix <;> simp <;> ring

theorem trigramScoreIter_eq_sum (g : LayoutGeneration) (L : FastLayout)
    (ts : TrigramData) :
    trigramScoreIter g L ts =
      (ts.map fun tf => patWeight g (g.classify tf.1 L.matrix) * tf.2).sum := by
  have key : ∀ fr : TrigramStats,
      trigramWeightSum g (ts.foldl (trigramScoreStep g L) fr) =
        trigramWeightSum g fr
          + (ts.map fun tf => patWeight g (g.classify tf.1 L.matrix) * tf.2).sum := by
    induction ts with
    | nil => intro fr; simp
    | cons tf rest ih =>
        intro fr
        rw [List.foldl_cons, ih, trigramWeightSum_step]
        simp
        ring
  have h0 : trigramWeightSum g {} = 0 := by
    unfold trigramWeightSum
    norm_num
  unfold trigramScoreIter
  rw [key {}, h0, zero_add]

theorem trigramScoreIter_perm (g : LayoutGeneration) (L : FastLayout)
    (ts₁ ts₂ : TrigramData) (h : ts₁.Perm ts₂) :
    trigramScoreIter g L ts₁ = trigramScoreIter g L ts₂ := by
  rw [trigramScoreIter_eq_sum, trigramScoreIter_eq_sum]
  exact (h.map _).sum_eq

theorem trigramScoreIter_append (g : LayoutGeneration) (L : FastLayout)
    (ts₁ ts₂ : TrigramData) :
    trigramScoreIter g L (ts₁ ++ ts₂) =
      trigramScoreIter g L ts₁ + trigramScoreIter g L ts₂ := by
  rw [trigramScoreIter_eq_sum, trigramScoreIter_eq_sum, trigramScoreIter_eq_sum,
    List.map_append, List.sum_append]

theorem trigramScoreIter_congr (g : LayoutGeneration) (L₁ L₂ : FastLayout)
    (ts : TrigramData)
    (h : ∀ tf ∈ ts, g.classify tf.1 L₁.matrix = g.classify tf.1 L₂.matrix) :
    trigramScoreIter g L₁ ts = trigramScoreIter g L₂ ts := by
  rw [trigramScoreIter_eq_sum, trigramScoreIter_eq_sum]
  congr 1
  exact List.map_congr_left fun tf htf => by rw [h tf htf]

theorem sum_map_filter_split {α : Type} (l : List α) (p : α → Bool) (f : α → ℚ) :
    (l.map f).sum = ((l.filter p).map f).sum
      + ((l.filter fun a => !(p a)).map f).sum := by
  induction l with
  | nil => simp
  | cons x t ih =>
      by_cases hx : p x
      · simp [List.filter_cons, hx, ih]
        ring
      · simp [List.filter_cons, hx, ih]
        ring

theorem filter_or_perm {α : Type} (l : List α) (p q : α → Bool) :
    (l.filter fun a => p a || q a).Perm
      ((l.filter p) ++ (l.filter fun a => q a && !(p a))) := by
  induction l with
  | nil => simp
  | cons x t ih =>
      by_cases hp : p x
      · simpa [List.filter_cons, hp] using ih.cons x
      · by_cases hq : q x
        · simp only [List.filter_cons, hp, hq]
          simp only [Bool.false_or, Bool.not_false, Bool.and_self, if_true,
            cond_true, cond_false]
          exact (ih.cons x).trans List.perm_middle.symm
        · simpa [List.filter_cons, hp, hq] using ih

theorem sum_update_one (s : Finset ℕ) (f f' : ℕ → ℚ) (a : ℕ) (ha : a ∈ s)
    (h : ∀ x ∈ s, x ≠ a → f' x = f x) :
    ∑ x ∈ s, f' x = (∑ x ∈ s, f x) - f a + f' a := by
  have h1 : ∑ x ∈ s.erase a, f' x + f' a = ∑ x ∈ s, f' x :=
    Finset.sum_erase_add s f' ha
  have h2 : ∑ x ∈ s.erase a, f x + f a = ∑ x ∈ s, f x :=
    Finset.sum_erase_add s f ha
  have h3 : ∑ x ∈ s.erase a, f' x = ∑ x ∈ s.erase a, f x := by
    refine Finset.sum_congr rfl fun x hx => ?_
    exact h x (Finset.mem_of_mem_erase hx) (Finset.ne_of_mem_erase hx)
  linarith

theorem sum_update_two (s : Finset ℕ) (f f' : ℕ → ℚ) (a b : ℕ) (ha : a ∈ s)
    (hb : b ∈ s) (hab : a ≠ b)
    (h : ∀ x ∈ s, x ≠ a → x ≠ b → f' x = f x) :
    ∑ x ∈ s, f' x = (∑ x ∈ s, f x) - f a - f b + f' a + f' b := by
  have hb' : b ∈ s.erase a := Finset.mem_erase.mpr ⟨fun hc => hab hc.symm, hb⟩
  have h1 : ∑ x ∈ s.erase a, f' x + f' a = ∑ x ∈ s, f' x :=
    Finset.sum_erase_add s f' ha
  have h2 : ∑ x ∈ s.erase a, f x + f a = ∑ x ∈ s, f x :=
    Finset.sum_erase_add s f ha
  have h3 : ∑ x ∈ (s.erase a).erase b, f' x + f' b = ∑ x ∈ s.erase a, f' x :=
    Finset.sum_erase_add _ f' hb'
  have h4 : ∑ x ∈ (s.erase a).erase b, f x + f b = ∑ x ∈ s.erase a, f x :=
    Finset.sum_erase_add _ f hb'
  have h5 : ∑ x ∈ (s.erase a).erase b, f' x = ∑ x ∈ (s.erase a).erase b, f x := by
    refine Finset.sum_congr rfl fun x hx => ?_
    have hxa := Finset.mem_of_mem_erase hx
    exact h x (Finset.mem_of_mem_erase hxa) (Finset.ne_of_mem_erase hxa)
      (Finset.ne_of_mem_erase hx)
  linarith

theorem usagePositions_spec :
    ∀ col, col < 8 → ∀ p ∈ usagePositions col, I_TO_COL.getD p 0 = col := by
  decide

theorem fspeedSlice_spec :
    ∀ col, col < 8 →
      ∀ pr ∈ (getSfbIndices.drop (colToStartLen col).1).take (colToStartLen col).2,
        I_TO_COL.getD pr.1 0 = col ∧ I_TO_COL.getD pr.2 0 = col := by
  decide

theorem charEffort_matrix (g : LayoutGeneration) (L₁ L₂ : FastLayout)
    (h : L₁.matrix = L₂.matrix) (i : ℕ) : charEffort g L₁ i = charEffort g L₂ i := by
  unfold charEffort
  rw [h]

theorem colUsage_matrix (g : LayoutGeneration) (L₁ L₂ : FastLayout)
    (h : L₁.matrix = L₂.matrix) (col : ℕ) : colUsage g L₁ col = colUsage g L₂ col := by
  unfold colUsage
  rw [h]

theorem colFspeed_matrix (g : LayoutGeneration) (L₁ L₂ : FastLayout)
    (h : L₁.matrix = L₂.matrix) (col : ℕ) :
    colFspeed g L₁ col = colFspeed g L₂ col := by
  unfold colFspeed pairFspeed
  rw [h]

theorem scissorScore_matrix (g : LayoutGeneration) (L₁ L₂ : FastLayout)
    (h : L₁.matrix = L₂.matrix) : scissorScore g L₁ = scissorScore g L₂ := by
  unfold scissorScore
  rw [h]

theorem trigramScoreIter_matrix (g : LayoutGeneration) (L₁ L₂ : FastLayout)
    (h : L₁.matrix = L₂.matrix) (ts : TrigramData) :
    trigramScoreIter g L₁ ts = trigramScoreIter g L₂ ts := by
  rw [trigramScoreIter_eq_sum, trigramScoreIter_eq_sum, h]

theorem charEffort_swap_ne (g : LayoutGeneration) (L : FastLayout) (i j k : ℕ)
    (h1 : k ≠ i) (h2 : k ≠ j) :
    charEffort g (swapNoBounds L (i, j)) k = charEffort g L k := by
  unfold charEffort swapNoBounds
  rw [show ({ L with matrix := swapChars L.matrix (i, j).1 (i, j).2 } :
    FastLayout).matrix = swapChars L.matrix i j from rfl]
  rw [swapChars_getD_ne L.matrix i j k ' ' h1 h2]

theorem colUsage_swap_ne (g : LayoutGeneration) (L : FastLayout) (i j col : ℕ)
    (hcol : col < 8) (hi : I_TO_COL.getD i 0 ≠ col) (hj : I_TO_COL.getD j 0 ≠ col) :
    colUsage g (swapNoBounds L (i, j)) col = colUsage g L col := by
  have hmap : (usagePositions col).map
      (fun p => g.characters ((swapNoBounds L (i, j)).matrix.getD p ' ')) =
      (usagePositions col).map (fun p => g.characters (L.matrix.getD p ' ')) := by
    refine List.map_congr_left fun p hp => ?_
    have hpc := usagePositions_spec col hcol p hp
    have hpi : p ≠ i := fun hc => hi (hc ▸ hpc)
    have hpj : p ≠ j := fun hc => hj (hc ▸ hpc)
    rw [show (swapNoBounds L (i, j)).matrix = swapChars L.matrix i j from rfl]
    rw [swapChars_getD_ne L.matrix i j p ' ' hpi hpj]
  unfold colUsage
  rw [hmap]

theorem colFspeed_swap_ne (g : LayoutGeneration) (L : FastLayout) (i j col : ℕ)
    (hfsp : g.fspeedVals.map Prod.fst = getSfbIndices)
    (hcol : col < 8) (hi : I_TO_COL.getD i 0 ≠ col) (hj : I_TO_COL.getD j 0 ≠ col) :
    colFspeed g (swapNoBounds L (i, j)) col = colFspeed g L col := by
  unfold colFspeed
  congr 1
  refine List.map_congr_left fun pd hpd => ?_
  have hmem : pd.1 ∈ (getSfbIndices.drop (colToStartLen col).1).take
      (colToStartLen col).2 := by
    rw [← hfsp, ← List.map_drop, ← List.map_take]
    exact List.mem_map_of_mem Prod.fst hpd
  have hspec := fspeedSlice_spec col hcol pd.1 hmem
  have h11 : pd.1.1 ≠ i := fun hc => hi (hc ▸ hspec.1)
  have h12 : pd.1.1 ≠ j := fun hc => hj (hc ▸ hspec.1)
  have h21 : pd.1.2 ≠ i := fun hc => hi (hc ▸ hspec.2)
  have h22 : pd.1.2 ≠ j := fun hc => hj (hc ▸ hspec.2)
  unfold pairFspeed
  rw [show (swapNoBounds L (i, j)).matrix = swapChars L.matrix i j from rfl]
  rw [swapChars_getD_ne L.matrix i j pd.1.1 ' ' h11 h12,
    swapChars_getD_ne L.matrix i j pd.1.2 ' ' h21 h22]

theorem scissorScore_swap_ne (g : LayoutGeneration) (L : FastLayout) (i j : ℕ)
    (h : ∀ p ∈ getScissorIndices, p.1 ≠ i ∧ p.1 ≠ j ∧ p.2 ≠ i ∧ p.2 ≠ j) :
    scissorScore g (swapNoBounds L (i, j)) = scissorScore g L := by
  unfold scissorScore
  congr 1
  refine congrArg List.sum (List.map_congr_left fun p hp => ?_)
  obtain ⟨h1i, h1j, h2i, h2j⟩ := h p hp
  rw [show (swapNoBounds L (i, j)).matrix = swapChars L.matrix i j from rfl]
  rw [swapChars_getD_ne L.matrix i j p.1 ' ' h1i h1j,
    swapChars_getD_ne L.matrix i j p.2 ' ' h2i h2j]

/-- The total effort `score` computes (generate.rs lines 337-340), which is
also what `initialize_cache` stores as `effort_total`. -/
def effortScoreT (g : LayoutGeneration) (L : FastLayout) : ℚ :=
  ∑ i ∈ Finset.range 30, charEffort g L i

/-- The total column usage summed over the eight fingers. -/
def usageScoreT (g : LayoutGeneration) (L : FastLayout) : ℚ :=
  ∑ col ∈ Finset.range 8, colUsage g L col

/-- The total finger speed summed over the eight fingers. -/
def fspeedScoreT (g : LayoutGeneration) (L : FastLayout) : ℚ :=
  ∑ col ∈ Finset.range 8, colFspeed g L col

theorem getD_map_range (n i : ℕ) (f : ℕ → ℚ) (h : i < n) :
    ((List.range n).map f).getD i 0 = f i := by
  rw [List.getD_eq_getElem?_getD, List.getElem?_map, List.getElem?_range h]
  rfl

theorem initCache_effort_getD (g : LayoutGeneration) (L : FastLayout) (i : ℕ)
    (h : i < 30) : (initCache g L).effort.getD i 0 = charEffort g L i := by
  unfold initCache
  exact getD_map_range 30 i _ h

theorem initCache_usage_getD (g : LayoutGeneration) (L : FastLayout) (c : ℕ)
    (h : c < 8) : (initCache g L).usage.getD c 0 = colUsage g L c := by
  unfold initCache
  exact getD_map_range 8 c _ h

theorem initCache_fspeed_getD (g : LayoutGeneration) (L : FastLayout) (c : ℕ)
    (h : c < 8) : (initCache g L).fspeed.getD c 0 = colFspeed g L c := by
  unfold initCache
  exact getD_map_range 8 c _ h

theorem initCache_effortTotal (g : LayoutGeneration) (L : FastLayout) :
    (initCache g L).effortTotal = effortScoreT g L := by
  unfold initCache effortScoreT
  exact sum_map_range 30 _

theorem initCache_usageTotal (g : LayoutGeneration) (L : FastLayout) :
    (initCache g L).usageTotal = usageScoreT g L := by
  unfold initCache usageScoreT
  exact sum_map_range 8 _

theorem initCache_fspeedTotal (g : LayoutGeneration) (L : FastLayout) :
    (initCache g L).fspeedTotal = fspeedScoreT g L := by
  unfold initCache fspeedScoreT
  exact sum_map_range 8 _

theorem initCache_scissors (g : LayoutGeneration) (L : FastLayout) :
    (initCache g L).scissors = scissorScore g L := rfl

theorem initCache_trigramsTotal (g : LayoutGeneration) (L : FastLayout) :
    (initCache g L).trigramsTotal = trigramScoreIter g L (g.trigrams.take 1000) := rfl

theorem initCache_totalScore (g : LayoutGeneration) (L : FastLayout) :
    (initCache g L).totalScore =
      trigramScoreIter g L (g.trigrams.take 1000) - scissorScore g L
        - effortScoreT g L - usageScoreT g L - fspeedScoreT g L := by
  have h1 := initCache_effortTotal g L
  have h2 := initCache_usageTotal g L
  have h3 := initCache_fspeedTotal g L
  unfold initCache at h1 h2 h3 ⊢
  unfold cacheTotal
  simp only at h1 h2 h3 ⊢
  rw [h1, h2, h3]

theorem I_TO_COL_lt : ∀ i, i < 30 → I_TO_COL.getD i 0 < 8 := by decide

theorem effort_delta (g : LayoutGeneration) (L : FastLayout) (i j : ℕ)
    (hi : i < 30) (hj : j < 30) (hij : i ≠ j) :
    effortScoreT g (swapNoBounds L (i, j)) =
      effortScoreT g L - charEffort g L i - charEffort g L j
        + charEffort g (swapNoBounds L (i, j)) i
        + charEffort g (swapNoBounds L (i, j)) j := by
  unfold effortScoreT
  exact sum_update_two (Finset.range 30) (charEffort g L)
    (charEffort g (swapNoBounds L (i, j))) i j
    (Finset.mem_range.mpr hi) (Finset.mem_range.mpr hj) hij
    (fun x _ hxi hxj => charEffort_swap_ne g L i j x hxi hxj)

theorem usage_delta_one (g : LayoutGeneration) (L : FastLayout) (i j : ℕ)
    (hi : i < 30) (hj : j < 30)
    (heq : I_TO_COL.getD i 0 = I_TO_COL.getD j 0) :
    usageScoreT g (swapNoBounds L (i, j)) =
      usageScoreT g L - colUsage g L (I_TO_COL.getD i 0)
        + colUsage g (swapNoBounds L (i, j)) (I_TO_COL.getD i 0) := by
  unfold usageScoreT
  exact sum_update_one (Finset.range 8) (colUsage g L)
    (colUsage g (swapNoBounds L (i, j))) (I_TO_COL.getD i 0)
    (Finset.mem_range.mpr (I_TO_COL_lt i hi))
    (fun c hc hci => colUsage_swap_ne g L i j c (Finset.mem_range.mp hc)
      (fun h => hci h.symm) (fun h => hci (heq ▸ h.symm)))

theorem usage_delta_two (g : LayoutGeneration) (L : FastLayout) (i j : ℕ)
    (hi : i < 30) (hj : j < 30)
    (hne : I_TO_COL.getD i 0 ≠ I_TO_COL.getD j 0) :
    usageScoreT g (swapNoBounds L (i, j)) =
      usageScoreT g L - colUsage g L (I_TO_COL.getD i 0)
        - colUsage g L (I_TO_COL.getD j 0)
        + colUsage g (swapNoBounds L (i, j)) (I_TO_COL.getD i 0)
        + colUsage g (swapNoBounds L (i, j)) (I_TO_COL.getD j 0) := by
  unfold usageScoreT
  exact sum_update_two (Finset.range 8) (colUsage g L)
    (colUsage g (swapNoBounds L (i, j))) (I_TO_COL.getD i 0) (I_TO_COL.getD j 0)
    (Finset.mem_range.mpr (I_TO_COL_lt i hi))
    (Finset.mem_range.mpr (I_TO_COL_lt j hj)) hne
    (fun c hc hci hcj => colUsage_swap_ne g L i j c (Finset.mem_range.mp hc)
      (fun h => hci h.symm) (fun h => hcj h.symm))

theorem fspeed_delta_one (g : LayoutGeneration) (L : FastLayout) (i j : ℕ)
    (hfsp : g.fspeedVals.map Prod.fst = getSfbIndices)
    (hi : i < 30) (hj : j < 30)
    (heq : I_TO_COL.getD i 0 = I_TO_COL.getD j 0) :
    fspeedScoreT g (swapNoBounds L (i, j)) =
      fspeedScoreT g L - colFspeed g L (I_TO_COL.getD i 0)
        + colFspeed g (swapNoBounds L (i, j)) (I_TO_COL.getD i 0) := by
  unfold fspeedScoreT
  exact sum_update_one (Finset.range 8) (colFspeed g L)
    (colFspeed g (swapNoBounds L (i, j))) (I_TO_COL.getD i 0)
    (Finset.mem_range.mpr (I_TO_COL_lt i hi))
    (fun c hc hci => colFspeed_swap_ne g L i j c hfsp (Finset.mem_range.mp hc)
      (fun h => hci h.symm) (fun h => hci (heq ▸ h.symm)))

theorem fspeed_delta_two (g : LayoutGeneration) (L : FastLayout) (i j : ℕ)
    (hfsp : g.fspeedVals.map Prod.fst = getSfbIndices)
    (hi : i < 30) (hj : j < 30)
    (hne : I_TO_COL.getD i 0 ≠ I_TO_COL.getD j 0) :
    fspeedScoreT g (swapNoBounds L (i, j)) =
      fspeedScoreT g L - colFspeed g L (I_TO_COL.getD i 0)
        - colFspeed g L (I_TO_COL.getD j 0)
        + colFspeed g (swapNoBounds L (i, j)) (I_TO_COL.getD i 0)
        + colFspeed g (swapNoBounds L (i, j)) (I_TO_COL.getD j 0) := by
  unfold fspeedScoreT
  exact sum_update_two (Finset.range 8) (colFspeed g L)
    (colFspeed g (swapNoBounds L (i, j))) (I_TO_COL.getD i 0) (I_TO_COL.getD j 0)
    (Finset.mem_range.mpr (I_TO_COL_lt i hi))
    (Finset.mem_range.mpr (I_TO_COL_lt j hj)) hne
    (fun c hc hci hcj => colFspeed_swap_ne g L i j c hfsp (Finset.mem_range.mp hc)
      (fun h => hci h.symm) (fun h => hcj h.symm))

theorem filter_filter_q {α : Type} (l : List α) (p q : α → Bool) :
    (l.filter p).filter q = l.filter fun a => q a && p a := by
  induction l with
  | nil => rfl
  | cons x t ih =>
      by_cases hp : p x
      · by_cases hq : q x <;> simp [List.filter_cons, hp, hq, ih]
      · simp [List.filter_cons, hp, ih]

theorem perCharF_perm (tg : TrigramData) (poss : List Char) (N : ℕ) (a b : Char)
    (ha : a ∈ poss) (hb : b ∈ poss) :
    (perCharTrigramsF tg poss N a b).Perm
      ((tg.take N).filter fun tf => trigramHas tf.1 a || trigramHas tf.1 b) := by
  unfold perCharTrigramsF
  rw [if_pos ⟨ha, hb⟩]
  dsimp only
  by_cases hlen : ((tg.take N).filter fun tf => trigramHas tf.1 b).length ≤
      ((tg.take N).filter fun tf => trigramHas tf.1 a).length
  · rw [if_pos hlen]
    dsimp only
    rw [filter_filter_q]
    have hcomm : ((tg.take N).filter fun tf =>
        !trigramHas tf.1 a && trigramHas tf.1 b) =
        ((tg.take N).filter fun tf => trigramHas tf.1 b && !trigramHas tf.1 a) :=
      List.filter_congr fun tf _ => Bool.and_comm _ _
    rw [hcomm]
    exact (filter_or_perm (tg.take N) (fun tf => trigramHas tf.1 a)
      (fun tf => trigramHas tf.1 b)).symm
  · rw [if_neg hlen]
    dsimp only
    rw [filter_filter_q]
    have hcomm : ((tg.take N).filter fun tf =>
        !trigramHas tf.1 b && trigramHas tf.1 a) =
        ((tg.take N).filter fun tf => trigramHas tf.1 a && !trigramHas tf.1 b) :=
      List.filter_congr fun tf _ => Bool.and_comm _ _
    rw [hcomm]
    refine ((filter_or_perm (tg.take N) (fun tf => trigramHas tf.1 b)
      (fun tf => trigramHas tf.1 a)).symm).trans ?_
    have : ((tg.take N).filter fun tf => trigramHas tf.1 b || trigramHas tf.1 a) =
        ((tg.take N).filter fun tf => trigramHas tf.1 a || trigramHas tf.1 b) := by
      refine List.filter_congr fun tf _ => ?_
      rw [Bool.or_comm]
    rw [this]

theorem trigram_delta (g : LayoutGeneration) (L : FastLayout) (i j N : ℕ)
    (hcl : ∀ (t : Trigram) (m : List Char) (a b : ℕ),
      trigramHas t (m.getD a ' ') = false → trigramHas t (m.getD b ' ') = false →
      g.classify t (swapChars m a b) = g.classify t m)
    (hpc1 : (g.perCharTrigrams (L.matrix.getD i ' ') (L.matrix.getD j ' ')).Perm
      ((g.trigrams.take N).filter fun tf =>
        trigramHas tf.1 (L.matrix.getD i ' ') || trigramHas tf.1 (L.matrix.getD j ' ')))
    (hpc2 : (g.perCharTrigrams (L.matrix.getD j ' ') (L.matrix.getD i ' ')).Perm
      ((g.trigrams.take N).filter fun tf =>
        trigramHas tf.1 (L.matrix.getD j ' ') || trigramHas tf.1 (L.matrix.getD i ' ')))
    (hi : i < L.matrix.length) (hj : j < L.matrix.length) :
    trigramScoreIter g (swapNoBounds L (i, j)) (g.trigrams.take N) =
      trigramScoreIter g L (g.trigrams.take N)
        - trigramCharScore g L (i, j)
        + trigramCharScore g (swapNoBounds L (i, j)) (i, j) := by
  set c1 := L.matrix.getD i ' ' with hc1
  set c2 := L.matrix.getD j ' ' with hc2
  set L' := swapNoBounds L (i, j) with hL'
  have hmx : L'.matrix = swapChars L.matrix i j := rfl
  have hgi : L'.matrix.getD i ' ' = c2 := by
    rw [hmx]; exact swapChars_getD_left L.matrix i j ' ' hi hj
  have hgj : L'.matrix.getD j ' ' = c1 := by
    rw [hmx]; exact swapChars_getD_right L.matrix i j ' ' hi hj
  set P : Trigram × ℚ → Bool := fun tf => trigramHas tf.1 c1 || trigramHas tf.1 c2
    with hP
  set A := (g.trigrams.take N).filter P with hA
  set B := (g.trigrams.take N).filter (fun tf => !(P tf)) with hB
  have h1 : trigramCharScore g L (i, j) = trigramScoreIter g L A := by
    unfold trigramCharScore
    exact trigramScoreIter_perm g L _ _ hpc1
  have h2 : trigramCharScore g L' (i, j) = trigramScoreIter g L' A := by
    unfold trigramCharScore
    rw [show ((i, j) : PosPair).1 = i from rfl, show ((i, j) : PosPair).2 = j from rfl]
    rw [hgi, hgj]
    refine (trigramScoreIter_perm g L' _ _ hpc2).trans ?_
    congr 1
    rw [hA, hP]
    refine List.filter_congr fun tf _ => ?_
    rw [Bool.or_comm]
  have h3 : trigramScoreIter g L (g.trigrams.take N) =
      trigramScoreIter g L A + trigramScoreIter g L B := by
    rw [trigramScoreIter_eq_sum, trigramScoreIter_eq_sum, trigramScoreIter_eq_sum,
      hA, hB]
    exact sum_map_filter_split (g.trigrams.take N) P _
  have h4 : trigramScoreIter g L' (g.trigrams.take N) =
      trigramScoreIter g L' A + trigramScoreIter g L' B := by
    rw [trigramScoreIter_eq_sum, trigramScoreIter_eq_sum, trigramScoreIter_eq_sum,
      hA, hB]
    exact sum_map_filter_split (g.trigrams.take N) P _
  have h5 : trigramScoreIter g L' B = trigramScoreIter g L B := by
    refine trigramScoreIter_congr g L' L B fun tf htf => ?_
    have hmem := List.mem_filter.mp (hB ▸ htf)
    have hnp : P tf = false := by
      have := hmem.2
      simp only [Bool.not_eq_true'] at this
      exact this
    have hn1 : trigramHas tf.1 c1 = false := by
      rw [hP] at hnp
      exact (Bool.or_eq_false_iff.mp hnp).1
    have hn2 : trigramHas tf.1 c2 = false := by
      rw [hP] at hnp
      exact (Bool.or_eq_false_iff.mp hnp).2
    rw [hmx]
    exact hcl tf.1 L.matrix i j (hc1 ▸ hn1) (hc2 ▸ hn2)
  rw [h4, h5, h3, h1, h2]
  ring

/-- Bundled facts about an engine that hold for every engine
`LayoutGeneration::new` constructs (with per-char trigram precision `N` and
layouts drawn from the character set `chars`): the `fspeed_vals` pairs are
`get_sfb_indices()`, the per-char trigram entry of two characters of `chars`
is (a permutation of) the top-`N` trigrams containing either one, and the
classifier reads only the positions of a trigram's own characters, so
swapping two characters foreign to the trigram does not change its class. -/
structure EngineHyps (g : LayoutGeneration) (N : ℕ) (chars : List Char) : Prop where
  fsp : g.fspeedVals.map Prod.fst = getSfbIndices
  pc : ∀ a b : Char, a ∈ chars → b ∈ chars →
    (g.perCharTrigrams a b).Perm
      ((g.trigrams.take N).filter fun tf => trigramHas tf.1 a || trigramHas tf.1 b)
  cl : ∀ (t : Trigram) (m : List Char) (a b : ℕ),
    trigramHas t (m.getD a ' ') = false → trigramHas t (m.getD b ' ') = false →
    g.classify t (swapChars m a b) = g.classify t m

theorem scoreSwapCached_value (g : LayoutGeneration) (N : ℕ) (chars : List Char)
    (hg : EngineHyps g N chars) (L : FastLayout) (C : LayoutCache) (i j : ℕ)
    (hchars : ∀ c ∈ L.matrix, c ∈ chars)
    (hEe : ∀ k, k < 30 → C.effort.getD k 0 = charEffort g L k)
    (hEu : ∀ c, c < 8 → C.usage.getD c 0 = colUsage g L c)
    (hEf : ∀ c, c < 8 → C.fspeed.getD c 0 = colFspeed g L c)
    (hi : i < 30) (hj : j < 30) (hij : i ≠ j) (hlen : L.matrix.length = 30)
    (hguard : C.totalScore < F64MAX) :
    scoreSwapCached g L (i, j) C =
      C.trigramsTotal - trigramScoreIter g L (g.trigrams.take N)
        + trigramScoreIter g (swapNoBounds L (i, j)) (g.trigrams.take N)
      - (if affectsScissor (i, j) then scissorScore g (swapNoBounds L (i, j))
          else C.scissors)
      - (C.effortTotal - effortScoreT g L + effortScoreT g (swapNoBounds L (i, j)))
      - (C.usageTotal - usageScoreT g L + usageScoreT g (swapNoBounds L (i, j)))
      - (C.fspeedTotal - fspeedScoreT g L + fspeedScoreT g (swapNoBounds L (i, j))) := by
  have hi' : i < L.matrix.length := by rw [hlen]; exact hi
  have hj' : j < L.matrix.length := by rw [hlen]; exact hj
  have hm1 : L.matrix.getD i ' ' ∈ L.matrix := by
    rw [List.getD_eq_getElem L.matrix ' ' hi']
    exact List.getElem_mem hi'
  have hm2 : L.matrix.getD j ' ' ∈ L.matrix := by
    rw [List.getD_eq_getElem L.matrix ' ' hj']
    exact List.getElem_mem hj'
  have hpc1 := hg.pc _ _ (hchars _ hm1) (hchars _ hm2)
  have hpc2 := hg.pc _ _ (hchars _ hm2) (hchars _ hm1)
  have htri := trigram_delta g L i j N hg.cl hpc1 hpc2 hi' hj'
  have heff := effort_delta g L i j hi hj hij
  have hinv : swapNoBounds (swapNoBounds L (i, j)) (i, j) = L :=
    swapNoBounds_involutive L (i, j)
  have hcol1lt : I_TO_COL.getD i 0 < 8 := I_TO_COL_lt i hi
  have hcol2lt : I_TO_COL.getD j 0 < 8 := I_TO_COL_lt j hj
  unfold scoreSwapCached scoreSwapCachedSt
  rw [if_pos hguard]
  dsimp only
  rw [hinv]
  rw [hEe i hi, hEe j hj]
  by_cases hcol : I_TO_COL.getD i 0 = I_TO_COL.getD j 0
  · rw [if_pos hcol, if_pos hcol]
    have hus := usage_delta_one g L i j hi hj hcol
    have hfs := fspeed_delta_one g L i j hg.fsp hi hj hcol
    rw [hEu _ hcol1lt, hEf _ hcol1lt]
    by_cases haff : affectsScissor (i, j)
    · rw [if_pos haff]
      linarith
    · rw [if_neg haff]
      linarith
  · rw [if_neg hcol, if_neg hcol]
    have hus := usage_delta_two g L i j hi hj hcol
    have hfs := fspeed_delta_two g L i j hg.fsp hi hj hcol
    rw [hEu _ hcol1lt, hEu _ hcol2lt, hEf _ hcol1lt, hEf _ hcol2lt]
    by_cases haff : affectsScissor (i, j)
    · rw [if_pos haff]
      linarith
    · rw [if_neg haff]
      linarith

theorem acceptSwap_fst (g : LayoutGeneration) (L : FastLayout) (p : PosPair)
    (C : LayoutCache) : (acceptSwap g L p C).1 = swapNoBounds L p := rfl

theorem cacheTotal_set_totalScore (c : LayoutCache) (q : ℚ) :
    cacheTotal { c with totalScore := q } = cacheTotal c := rfl

/-- The score `accept_swap` writes into `total_score` is exactly the value
`score_swap_cached` returns for the same swap on the same cache, whenever the
(inert) pruning guard lets `score_swap_cached` evaluate: both compute the
identical component deltas. -/
theorem acceptSwap_totalScore (g : LayoutGeneration) (L : FastLayout)
    (p : PosPair) (C : LayoutCache) (hguard : C.totalScore < F64MAX) :
    ((acceptSwap g L p C).2).totalScore = scoreSwapCached g L p C := by
  have hinv : swapNoBounds (swapNoBounds L p) p = L := swapNoBounds_involutive L p
  unfold acceptSwap scoreSwapCached scoreSwapCachedSt cacheTotal
  rw [if_pos hguard]
  dsimp only
  rw [hinv]
  by_cases hcol : I_TO_COL.getD p.1 0 = I_TO_COL.getD p.2 0
  · simp only [if_pos hcol]
  · simp only [if_neg hcol]

theorem getD_set_self' {α : Type} (l : List α) (i : ℕ) (v d : α)
    (h : i < l.length) : (l.set i v).getD i d = v := by
  rw [List.getD_eq_getElem?_getD, List.getElem?_set_self (by simpa using h)]
  rfl

theorem getD_set_ne' {α : Type} (l : List α) (i k : ℕ) (v d : α) (h : i ≠ k) :
    (l.set i v).getD k d = l.getD k d := by
  rw [List.getD_eq_getElem?_getD, List.getElem?_set_ne h,
    ← List.getD_eq_getElem?_getD]

theorem acceptSwap_snd_effort (g : LayoutGeneration) (L : FastLayout)
    (p : PosPair) (C : LayoutCache) :
    ((acceptSwap g L p C).2).effort =
      (C.effort.set p.1 (charEffort g (swapNoBounds L p) p.1)).set p.2
        (charEffort g (swapNoBounds L p) p.2) := rfl

theorem acceptSwap_snd_effortTotal (g : LayoutGeneration) (L : FastLayout)
    (p : PosPair) (C : LayoutCache) :
    ((acceptSwap g L p C).2).effortTotal =
      C.effortTotal - C.effort.getD p.1 0 - C.effort.getD p.2 0
        + charEffort g (swapNoBounds L p) p.1
        + charEffort g (swapNoBounds L p) p.2 := rfl

theorem acceptSwap_snd_scissors (g : LayoutGeneration) (L : FastLayout)
    (p : PosPair) (C : LayoutCache) :
    ((acceptSwap g L p C).2).scissors =
      if affectsScissor p then scissorScore g (swapNoBounds L p)
      else C.scissors := rfl

theorem acceptSwap_snd_trigramsTotal (g : LayoutGeneration) (L : FastLayout)
    (p : PosPair) (C : LayoutCache) :
    ((acceptSwap g L p C).2).trigramsTotal =
      C.trigramsTotal - trigramCharScore g L p
        + trigramCharScore g (swapNoBounds L p) p := rfl

theorem acceptSwap_snd_totalScore_eq (g : LayoutGeneration) (L : FastLayout)
    (p : PosPair) (C : LayoutCache) :
    ((acceptSwap g L p C).2).totalScore = cacheTotal ((acceptSwap g L p C).2) := rfl

theorem acceptSwap_snd_usage (g : LayoutGeneration) (L : FastLayout)
    (p : PosPair) (C : LayoutCache) :
    ((acceptSwap g L p C).2).usage =
      if I_TO_COL.getD p.1 0 = I_TO_COL.getD p.2 0 then
        C.usage.set (I_TO_COL.getD p.1 0)
          (colUsage g (swapNoBounds L p) (I_TO_COL.getD p.1 0))
      else
        (C.usage.set (I_TO_COL.getD p.1 0)
          (colUsage g (swapNoBounds L p) (I_TO_COL.getD p.1 0))).set
          (I_TO_COL.getD p.2 0)
          (colUsage g (swapNoBounds L p) (I_TO_COL.getD p.2 0)) := by
  unfold acceptSwap
  dsimp only
  by_cases hcol : I_TO_COL.getD p.1 0 = I_TO_COL.getD p.2 0
  · simp only [if_pos hcol]
  · simp only [if_neg hcol]

theorem acceptSwap_snd_usageTotal (g : LayoutGeneration) (L : FastLayout)
    (p : PosPair) (C : LayoutCache) :
    ((acceptSwap g L p C).2).usageTotal =
      if I_TO_COL.getD p.1 0 = I_TO_COL.getD p.2 0 then
        C.usageTotal - C.usage.getD (I_TO_COL.getD p.1 0) 0
          + colUsage g (swapNoBounds L p) (I_TO_COL.getD p.1 0)
      else
        C.usageTotal - C.usage.getD (I_TO_COL.getD p.1 0) 0
          - C.usage.getD (I_TO_COL.getD p.2 0) 0
          + colUsage g (swapNoBounds L p) (I_TO_COL.getD p.1 0)
          + colUsage g (swapNoBounds L p) (I_TO_COL.getD p.2 0) := by
  unfold acceptSwap
  dsimp only
  by_cases hcol : I_TO_COL.getD p.1 0 = I_TO_COL.getD p.2 0
  · simp only [if_pos hcol]
  · simp only [if_neg hcol]

theorem acceptSwap_snd_fspeed (g : LayoutGeneration) (L : FastLayout)
    (p : PosPair) (C : LayoutCache) :
    ((acceptSwap g L p C).2).fspeed =
      if I_TO_COL.getD p.1 0 = I_TO_COL.getD p.2 0 then
        C.fspeed.set (I_TO_COL.getD p.1 0)
          (colFspeed g (swapNoBounds L p) (I_TO_COL.getD p.1 0))
      else
        (C.fspeed.set (I_TO_COL.getD p.1 0)
          (colFspeed g (swapNoBounds L p) (I_TO_COL.getD p.1 0))).set
          (I_TO_COL.getD p.2 0)
          (colFspeed g (swapNoBounds L p) (I_TO_COL.getD p.2 0)) := by
  unfold acceptSwap
  dsimp only
  by_cases hcol : I_TO_COL.getD p.1 0 = I_TO_COL.getD p.2 0
  · simp only [if_pos hcol]
  · simp only [if_neg hcol]

theorem acceptSwap_snd_fspeedTotal (g : LayoutGeneration) (L : FastLayout)
    (p : PosPair) (C : LayoutCache) :
    ((acceptSwap g L p C).2).fspeedTotal =
      if I_TO_COL.getD p.1 0 = I_TO_COL.getD p.2 0 then
        C.fspeedTotal - C.fspeed.getD (I_TO_COL.getD p.1 0) 0
          + colFspeed g (swapNoBounds L p) (I_TO_COL.getD p.1 0)
      else
        C.fspeedTotal - C.fspeed.getD (I_TO_COL.getD p.1 0) 0
          - C.fspeed.getD (I_TO_COL.getD p.2 0) 0
          + colFspeed g (swapNoBounds L p) (I_TO_COL.getD p.1 0)
          + colFspeed g (swapNoBounds L p) (I_TO_COL.getD p.2 0) := by
  unfold acceptSwap
  dsimp only
  by_cases hcol : I_TO_COL.getD p.1 0 = I_TO_COL.getD p.2 0
  · simp only [if_pos hcol]
  · simp only [if_neg hcol]

/-- Invariant relating a cache to the layout it serves, parameterized by the
constant offsets `eE`, `eU`, `eF`, `tau` between the cache's totals and the
exact recomputed totals (all four are 0 for `initialize_cache` output, but
they stay constant under `accept_swap` whatever they are) and by a set
`scSet` of admissible values for the possibly stale `scissors` field. -/
structure CacheOK (g : LayoutGeneration) (N : ℕ) (eE eU eF tau : ℚ)
    (scSet : Finset ℚ) (L : FastLayout) (C : LayoutCache) : Prop where
  lenE : C.effort.length = 30
  lenU : C.usage.length = 8
  lenF : C.fspeed.length = 8
  entE : ∀ k, k < 30 → C.effort.getD k 0 = charEffort g L k
  entU : ∀ c, c < 8 → C.usage.getD c 0 = colUsage g L c
  entF : ∀ c, c < 8 → C.fspeed.getD c 0 = colFspeed g L c
  totE : C.effortTotal = effortScoreT g L + eE
  totU : C.usageTotal = usageScoreT g L + eU
  totF : C.fspeedTotal = fspeedScoreT g L + eF
  totT : C.trigramsTotal = tau + trigramScoreIter g L (g.trigrams.take N)
  sc : C.scissors ∈ scSet
  tot : C.totalScore = cacheTotal C

theorem initCache_cacheOK (g : LayoutGeneration) (N : ℕ) (L : FastLayout)
    (hN : N = 1000) (hsc : scissorScore g L ∈ scSet) :
    CacheOK g N 0 0 0 0 scSet L (initCache g L) := by
  subst hN
  refine ⟨?_, ?_, ?_, ?_, ?_, ?_, ?_, ?_, ?_, ?_, ?_, ?_⟩
  · simp [initCache]
  · simp [initCache]
  · simp [initCache]
  · exact fun k hk => initCache_effort_getD g L k hk
  · exact fun c hc => initCache_usage_getD g L c hc
  · exact fun c hc => initCache_fspeed_getD g L c hc
  · rw [initCache_effortTotal]; ring
  · rw [initCache_usageTotal]; ring
  · rw [initCache_fspeedTotal]; ring
  · rw [initCache_trigramsTotal]; ring
  · exact hsc
  · rfl

theorem acceptSwap_preserves (g : LayoutGeneration) (N : ℕ) (chars : List Char)
    (hg : EngineHyps g N chars) (eE eU eF tau : ℚ) (scSet : Finset ℚ)
    (L : FastLayout) (C : LayoutCache) (i j : ℕ)
    (hOK : CacheOK g N eE eU eF tau scSet L C)
    (hchars : ∀ c ∈ L.matrix, c ∈ chars)
    (hi : i < 30) (hj : j < 30) (hij : i ≠ j) (hlen : L.matrix.length = 30)
    (hscmem : scissorScore g (swapNoBounds L (i, j)) ∈ scSet) :
    CacheOK g N eE eU eF tau scSet (swapNoBounds L (i, j))
      ((acceptSwap g L (i, j) C).2) := by
  have hi' : i < L.matrix.length := by rw [hlen]; exact hi
  have hj' : j < L.matrix.length := by rw [hlen]; exact hj
  have hm1 : L.matrix.getD i ' ' ∈ L.matrix := by
    rw [List.getD_eq_getElem L.matrix ' ' hi']
    exact List.getElem_mem hi'
  have hm2 : L.matrix.getD j ' ' ∈ L.matrix := by
    rw [List.getD_eq_getElem L.matrix ' ' hj']
    exact List.getElem_mem hj'
  have hpc1 := hg.pc _ _ (hchars _ hm1) (hchars _ hm2)
  have hpc2 := hg.pc _ _ (hchars _ hm2) (hchars _ hm1)
  have htri := trigram_delta g L i j N hg.cl hpc1 hpc2 hi' hj'
  have heff := effort_delta g L i j hi hj hij
  have hcol1lt : I_TO_COL.getD i 0 < 8 := I_TO_COL_lt i hi
  have hcol2lt : I_TO_COL.getD j 0 < 8 := I_TO_COL_lt j hj
  have hp1 : ((i, j) : PosPair).1 = i := rfl
  have hp2 : ((i, j) : PosPair).2 = j := rfl
  refine ⟨?_, ?_, ?_, ?_, ?_, ?_, ?_, ?_, ?_, ?_, ?_, ?_⟩
  · rw [acceptSwap_snd_effort]
    simp [List.length_set, hOK.lenE]
  · rw [acceptSwap_snd_usage, hp1, hp2]
    by_cases hcol : I_TO_COL.getD i 0 = I_TO_COL.getD j 0
    · rw [if_pos hcol]
      simp [List.length_set, hOK.lenU]
    · rw [if_neg hcol]
      simp [List.length_set, hOK.lenU]
  · rw [acceptSwap_snd_fspeed, hp1, hp2]
    by_cases hcol : I_TO_COL.getD i 0 = I_TO_COL.getD j 0
    · rw [if_pos hcol]
      simp [List.length_set, hOK.lenF]
    · rw [if_neg hcol]
      simp [List.length_set, hOK.lenF]
  · intro k hk
    rw [acceptSwap_snd_effort, hp1, hp2]
    by_cases hkj : k = j
    · subst hkj
      exact getD_set_self' _ k _ 0 (by simp [List.length_set, hOK.lenE, hk])
    · rw [getD_set_ne' _ j k _ 0 (fun h => hkj h.symm)]
      by_cases hki : k = i
      · subst hki
        exact getD_set_self' _ k _ 0 (by rw [hOK.lenE]; exact hk)
      · rw [getD_set_ne' _ i k _ 0 (fun h => hki h.symm)]
        rw [hOK.entE k hk]
        exact (charEffort_swap_ne g L i j k hki hkj).symm
  · intro c hc
    rw [acceptSwap_snd_usage, hp1, hp2]
    by_cases hcol : I_TO_COL.getD i 0 = I_TO_COL.getD j 0
    · rw [if_pos hcol]
      by_cases hc1 : c = I_TO_COL.getD i 0
      · subst hc1
        exact getD_set_self' _ _ _ 0 (by rw [hOK.lenU]; exact hc)
      · rw [getD_set_ne' _ _ c _ 0 (fun h => hc1 h.symm), hOK.entU c hc]
        exact (colUsage_swap_ne g L i j c hc (fun h => hc1 h.symm)
          (fun h => hc1 (hcol ▸ h.symm))).symm
    · rw [if_neg hcol]
      by_cases hc2 : c = I_TO_COL.getD j 0
      · subst hc2
        exact getD_set_self' _ _ _ 0
          (by rw [List.length_set, hOK.lenU]; exact hc)
      · rw [getD_set_ne' _ _ c _ 0 (fun h => hc2 h.symm)]
        by_cases hc1 : c = I_TO_COL.getD i 0
        · subst hc1
          exact getD_set_self' _ _ _ 0 (by rw [hOK.lenU]; exact hc)
        · rw [getD_set_ne' _ _ c _ 0 (fun h => hc1 h.symm), hOK.entU c hc]
          exact (colUsage_swap_ne g L i j c hc (fun h => hc1 h.symm)
            (fun h => hc2 h.symm)).symm
  · intro c hc
    rw [acceptSwap_snd_fspeed, hp1, hp2]
    by_cases hcol : I_TO_COL.getD i 0 = I_TO_COL.getD j 0
    · rw [if_pos hcol]
      by_cases hc1 : c = I_TO_COL.getD i 0
      · subst hc1
        exact getD_set_self' _ _ _ 0 (by rw [hOK.lenF]; exact hc)
      · rw [getD_set_ne' _ _ c _ 0 (fun h => hc1 h.symm), hOK.entF c hc]
        exact (colFspeed_swap_ne g L i j c hg.fsp hc (fun h => hc1 h.symm)
          (fun h => hc1 (hcol ▸ h.symm))).symm
    · rw [if_neg hcol]
      by_cases hc2 : c = I_TO_COL.getD j 0
      · subst hc2
        exact getD_set_self' _ _ _ 0
          (by rw [List.length_set, hOK.lenF]; exact hc)
      · rw [getD_set_ne' _ _ c _ 0 (fun h => hc2 h.symm)]
        by_cases hc1 : c = I_TO_COL.getD i 0
        · subst hc1
          exact getD_set_self' _ _ _ 0 (by rw [hOK.lenF]; exact hc)
        · rw [getD_set_ne' _ _ c _ 0 (fun h => hc1 h.symm), hOK.entF c hc]
          exact (colFspeed_swap_ne g L i j c hg.fsp hc (fun h => hc1 h.symm)
            (fun h => hc2 h.symm)).symm
  · rw [acceptSwap_snd_effortTotal, hp1, hp2, hOK.entE i hi, hOK.entE j hj,
      hOK.totE]
    linarith
  · rw [acceptSwap_snd_usageTotal, hp1, hp2]
    by_cases hcol : I_TO_COL.getD i 0 = I_TO_COL.getD j 0
    · rw [if_pos hcol, hOK.entU _ hcol1lt, hOK.totU]
      have hus := usage_delta_one g L i j hi hj hcol
      linarith
    · rw [if_neg hcol, hOK.entU _ hcol1lt, hOK.entU _ hcol2lt, hOK.totU]
      have hus := usage_delta_two g L i j hi hj hcol
      linarith
  · rw [acceptSwap_snd_fspeedTotal, hp1, hp2]
    by_cases hcol : I_TO_COL.getD i 0 = I_TO_COL.getD j 0
    · rw [if_pos hcol, hOK.entF _ hcol1lt, hOK.totF]
      have hfs := fspeed_delta_one g L i j hg.fsp hi hj hcol
      linarith
    · rw [if_neg hcol, hOK.entF _ hcol1lt, hOK.entF _ hcol2lt, hOK.totF]
      have hfs := fspeed_delta_two g L i j hg.fsp hi hj hcol
      linarith
  · rw [acceptSwap_snd_trigramsTotal, hOK.totT]
    linarith
  · rw [acceptSwap_snd_scissors]
    by_cases haff : affectsScissor (i, j)
    · rw [if_pos haff]
      exact hscmem
    · rw [if_neg haff]
      exact hOK.sc
  · exact acceptSwap_snd_totalScore_eq g L (i, j) C

/-- The finite set of matrices reachable by swaps from `m`. -/
def permsF (m : List Char) : Finset (List Char) := m.permutations.toFinset

theorem mem_permsF (m m' : List Char) : m' ∈ permsF m ↔ m'.Perm m := by
  unfold permsF
  rw [List.mem_toFinset, List.mem_permutations]

/-- The finite set of values the possibly-stale `scissors` cache field can
take along a run that started with value `sc0`. -/
def scissorSet (g : LayoutGeneration) (m0 : List Char) (sc0 : ℚ) : Finset ℚ :=
  insert sc0 ((permsF m0).image fun m => scissorScore g ⟨m, 0⟩)

theorem scissorSet_mem (g : LayoutGeneration) (m0 : List Char) (sc0 : ℚ)
    (L : FastLayout) (h : L.matrix.Perm m0) :
    scissorScore g L ∈ scissorSet g m0 sc0 := by
  have : scissorScore g L = scissorScore g ⟨L.matrix, 0⟩ :=
    scissorScore_matrix g L ⟨L.matrix, 0⟩ rfl
  rw [this]
  exact Finset.mem_insert_of_mem
    (Finset.mem_image_of_mem _ ((mem_permsF m0 L.matrix).mpr h))

theorem scissorSet_base (g : LayoutGeneration) (m0 : List Char) (sc0 : ℚ) :
    sc0 ∈ scissorSet g m0 sc0 := Finset.mem_insert_self sc0 _

/-- The finite set of scores `score_swap_cached` can return (apart from the
sentinel) along a run over permutations of `m0` with cache offsets summed
into `K` and stale scissors drawn from `scSet`. -/
def scoreVals (g : LayoutGeneration) (N : ℕ) (K : ℚ) (m0 : List Char)
    (scSet : Finset ℚ) : Finset ℚ :=
  ((permsF m0) ×ˢ scSet).image fun pr =>
    K + trigramScoreIter g ⟨pr.1, 0⟩ (g.trigrams.take N)
      - effortScoreT g ⟨pr.1, 0⟩ - usageScoreT g ⟨pr.1, 0⟩
      - fspeedScoreT g ⟨pr.1, 0⟩ - pr.2

theorem scoreSwapCached_mem (g : LayoutGeneration) (N : ℕ) (chars : List Char)
    (hg : EngineHyps g N chars) (eE eU eF tau : ℚ) (scSet : Finset ℚ)
    (m0 : List Char) (L : FastLayout) (C : LayoutCache) (i j : ℕ)
    (hOK : CacheOK g N eE eU eF tau scSet L C)
    (hperm : L.matrix.Perm m0)
    (hchars : ∀ c ∈ L.matrix, c ∈ chars)
    (hi : i < 30) (hj : j < 30) (hij : i ≠ j) (hlen : L.matrix.length = 30)
    (hguard : C.totalScore < F64MAX)
    (hsc : scissorScore g (swapNoBounds L (i, j)) ∈ scSet) :
    scoreSwapCached g L (i, j) C ∈
      scoreVals g N (tau - eE - eU - eF) m0 scSet := by
  set L' := swapNoBounds L (i, j) with hL'
  have hval := scoreSwapCached_value g N chars hg L C i j hchars hOK.entE hOK.entU
    hOK.entF hi hj hij hlen hguard
  have hpermL' : L'.matrix.Perm m0 := by
    refine List.Perm.trans ?_ hperm
    exact swapChars_perm L.matrix i j
  have hscv : (if affectsScissor (i, j) then scissorScore g L' else C.scissors)
      ∈ scSet := by
    by_cases haff : affectsScissor (i, j)
    · rw [if_pos haff]; exact hsc
    · rw [if_neg haff]; exact hOK.sc
  unfold scoreVals
  rw [Finset.mem_image]
  refine ⟨(L'.matrix, if affectsScissor (i, j) then scissorScore g L'
    else C.scissors), ?_, ?_⟩
  · rw [Finset.mem_product]
    exact ⟨(mem_permsF m0 L'.matrix).mpr hpermL', hscv⟩
  · rw [hval, hOK.totT, hOK.totE, hOK.totU, hOK.totF]
    have e1 : trigramScoreIter g (⟨L'.matrix, 0⟩ : FastLayout) (g.trigrams.take N)
        = trigramScoreIter g L' (g.trigrams.take N) :=
      trigramScoreIter_matrix g _ L' rfl _
    have e2 : effortScoreT g (⟨L'.matrix, 0⟩ : FastLayout) = effortScoreT g L' := by
      unfold effortScoreT
      exact Finset.sum_congr rfl fun k _ => charEffort_matrix g _ L' rfl k
    have e3 : usageScoreT g (⟨L'.matrix, 0⟩ : FastLayout) = usageScoreT g L' := by
      unfold usageScoreT
      exact Finset.sum_congr rfl fun c _ => colUsage_matrix g _ L' rfl c
    have e4 : fspeedScoreT g (⟨L'.matrix, 0⟩ : FastLayout) = fspeedScoreT g L' := by
      unfold fspeedScoreT
      exact Finset.sum_congr rfl fun c _ => colFspeed_matrix g _ L' rfl c
    rw [e1, e2, e3, e4]
    ring

/-- Specification of the fold inside `best_swap_cached`: either nothing beat
the initial best (and the score is the initial best), or the returned swap is
from the candidate list, its score is the returned score, and it strictly
beats the initial best. -/
def BestAcc (g : LayoutGeneration) (L : FastLayout) (C : LayoutCache)
    (init : ℚ) (univ : List PosPair) (acc : Option PosPair × ℚ) : Prop :=
  (acc.1 = none ∧ acc.2 = init) ∨
  (∃ s, acc.1 = some s ∧ s ∈ univ ∧ acc.2 = scoreSwapCached g L s C ∧ init < acc.2)

theorem bestFold_acc (g : LayoutGeneration) (L : FastLayout) (C : LayoutCache)
    (init : ℚ) (univ : List PosPair) (l : List PosPair)
    (hl : ∀ s ∈ l, s ∈ univ) (acc : Option PosPair × ℚ)
    (hacc : BestAcc g L C init univ acc) :
    BestAcc g L C init univ
      (l.foldl (fun acc swap =>
        let score := scoreSwapCached g L swap C
        if score > acc.2 then (some swap, score) else acc) acc) := by
  induction l generalizing acc with
  | nil => exact hacc
  | cons s t ih =>
      rw [List.foldl_cons]
      refine ih (fun x hx => hl x (List.mem_cons_of_mem s hx)) _ ?_
      by_cases hgt : scoreSwapCached g L s C > acc.2
      · simp only [if_pos hgt]
        refine Or.inr ⟨s, rfl, hl s (List.mem_cons_self s t), rfl, ?_⟩
        rcases hacc with ⟨_, h2⟩ | ⟨s', _, _, _, hlt⟩
        · rw [← h2]; exact hgt
        · exact lt_trans hlt hgt
      · simp only [if_neg hgt]
        exact hacc

theorem bestSwapCached_spec (g : LayoutGeneration) (L : FastLayout)
    (C : LayoutCache) (cb : Option ℚ) (swaps : List PosPair) :
    BestAcc g L C (cb.getD (F64MIN / 2)) swaps (bestSwapCached g L C cb swaps) := by
  unfold bestSwapCached
  exact bestFold_acc g L C _ swaps swaps (fun s hs => hs) _ (Or.inl ⟨rfl, rfl⟩)

theorem sentinel_lt_halfMin : SENTINEL < F64MIN / 2 := by
  unfold SENTINEL F64MIN F64MAX
  norm_num

theorem scoreSwapCached_sentinel (g : LayoutGeneration) (L : FastLayout)
    (p : PosPair) (C : LayoutCache) (h : ¬ (C.totalScore < F64MAX)) :
    scoreSwapCached g L p C = SENTINEL := by
  unfold scoreSwapCached scoreSwapCachedSt
  rw [if_neg h]

/-- Invariant carried by the `optimize_cached` loop state. -/
structure OptInv (g : LayoutGeneration) (N : ℕ) (chars m0 : List Char)
    (eE eU eF tau sc0 : ℚ) (st : FastLayout × LayoutCache × ℚ) : Prop where
  perm : st.1.matrix.Perm m0
  ok : CacheOK g N eE eU eF tau (scissorSet g m0 sc0) st.1 st.2.1
  cb : F64MIN / 2 ≤ st.2.2

theorem optStep_spec (g : LayoutGeneration) (N : ℕ) (chars m0 : List Char)
    (eE eU eF tau sc0 : ℚ) (hg : EngineHyps g N chars)
    (hm0chars : ∀ c ∈ m0, c ∈ chars) (hm0len : m0.length = 30)
    (swaps : List PosPair)
    (hswaps : ∀ s ∈ swaps, s.1 < 30 ∧ s.2 < 30 ∧ s.1 ≠ s.2)
    (st st' : FastLayout × LayoutCache × ℚ)
    (hInv : OptInv g N chars m0 eE eU eF tau sc0 st)
    (hstep : optStep g swaps st = some st') :
    OptInv g N chars m0 eE eU eF tau sc0 st' ∧ st.2.2 < st'.2.2 ∧
      st'.2.2 ∈ scoreVals g N (tau - eE - eU - eF) m0 (scissorSet g m0 sc0) := by
  have hchars : ∀ c ∈ st.1.matrix, c ∈ chars := fun c hc =>
    hm0chars c (hInv.perm.mem_iff.mp hc)
  have hlen : st.1.matrix.length = 30 := by
    rw [hInv.perm.length_eq, hm0len]
  have hspec := bestSwapCached_spec g st.1 st.2.1 (some st.2.2) swaps
  unfold optStep at hstep
  cases hbs : bestSwapCached g st.1 st.2.1 (some st.2.2) swaps with
  | mk o ns =>
      rw [hbs] at hstep hspec
      cases o with
      | none => exact absurd hstep (by simp)
      | some s =>
          simp only [Option.some.injEq] at hstep
          rcases hspec with ⟨hnone, _⟩ | ⟨sx, hsx, hmem, hval, hgt⟩
          · exact absurd hnone (by simp)
          · have hss : s = sx := by simpa using hsx
            subst hss
            dsimp only [Option.getD_some] at hval hgt
            obtain ⟨hs1, hs2, hs12⟩ := hswaps s hmem
            have hguard : st.2.1.totalScore < F64MAX := by
              by_contra hng
              have hsen := scoreSwapCached_sentinel g st.1 s st.2.1 hng
              rw [hsen] at hval
              have hcb := hInv.cb
              have hsl := sentinel_lt_halfMin
              rw [hval] at hgt
              linarith
            have hpair : (s.1, s.2) = s := rfl
            have hmemV : scoreSwapCached g st.1 s st.2.1 ∈
                scoreVals g N (tau - eE - eU - eF) m0 (scissorSet g m0 sc0) := by
              have hmm := scoreSwapCached_mem g N chars hg eE eU eF tau
                (scissorSet g m0 sc0) m0 st.1 st.2.1 s.1 s.2 hInv.ok hInv.perm
                hchars hs1 hs2 hs12 hlen hguard
                (scissorSet_mem g m0 sc0 _
                  (List.Perm.trans (swapChars_perm st.1.matrix s.1 s.2) hInv.perm))
              rwa [hpair] at hmm
            have hpres : CacheOK g N eE eU eF tau (scissorSet g m0 sc0)
                (swapNoBounds st.1 (s.1, s.2))
                ((acceptSwap g st.1 (s.1, s.2) st.2.1).2) :=
              acceptSwap_preserves g N chars hg eE eU eF tau (scissorSet g m0 sc0)
                st.1 st.2.1 s.1 s.2 hInv.ok hchars hs1 hs2 hs12 hlen
                (scissorSet_mem g m0 sc0 _
                  (List.Perm.trans (swapChars_perm st.1.matrix s.1 s.2) hInv.perm))
            rw [hpair] at hpres
            subst hstep
            refine ⟨⟨?_, ?_, ?_⟩, ?_, ?_⟩
            · show ((acceptSwap g st.1 s st.2.1).1).matrix.Perm m0
              rw [acceptSwap_fst]
              exact List.Perm.trans (swapChars_perm st.1.matrix s.1 s.2) hInv.perm
            · show CacheOK g N eE eU eF tau (scissorSet g m0 sc0)
                (acceptSwap g st.1 s st.2.1).1 (acceptSwap g st.1 s st.2.1).2
              rw [acceptSwap_fst]
              exact hpres
            · show F64MIN / 2 ≤ ns
              exact le_of_lt (lt_of_le_of_lt hInv.cb hgt)
            · show st.2.2 < ns
              exact hgt
            · show ns ∈ scoreVals g N (tau - eE - eU - eF) m0 (scissorSet g m0 sc0)
              rw [hval]
              exact hmemV

theorem filter_card_lt (V : Finset ℚ) (a b : ℚ) (hab : a < b) (hbV : b ∈ V) :
    (V.filter fun v => b < v).card < (V.filter fun v => a < v).card := by
  apply Finset.card_lt_card
  constructor
  · intro v hv
    rw [Finset.mem_filter] at hv ⊢
    exact ⟨hv.1, lt_trans hab hv.2⟩
  · intro hsub
    have hbmem : b ∈ V.filter fun v => a < v := Finset.mem_filter.mpr ⟨hbV, hab⟩
    have := hsub hbmem
    rw [Finset.mem_filter] at this
    exact lt_irrefl b this.2

/-- Termination of the `optimize_cached` loop: from any state satisfying the
invariant, the fuel-indexed iteration stabilizes, because the running best
score strictly increases within the finite set `scoreVals` on every accepted
swap. -/
theorem optimizeCachedGo_stab (g : LayoutGeneration) (N : ℕ)
    (chars m0 : List Char) (eE eU eF tau sc0 : ℚ) (hg : EngineHyps g N chars)
    (hm0chars : ∀ c ∈ m0, c ∈ chars) (hm0len : m0.length = 30)
    (swaps : List PosPair)
    (hswaps : ∀ s ∈ swaps, s.1 < 30 ∧ s.2 < 30 ∧ s.1 ≠ s.2) :
    ∀ (k : ℕ) (st : FastLayout × LayoutCache × ℚ),
      ((scoreVals g N (tau - eE - eU - eF) m0 (scissorSet g m0 sc0)).filter
        fun v => st.2.2 < v).card = k →
      OptInv g N chars m0 eE eU eF tau sc0 st →
      ∃ n, ∀ m, n ≤ m →
        optimizeCachedGo g swaps m st = optimizeCachedGo g swaps n st := by
  intro k
  induction k using Nat.strong_induction_on with
  | _ k ih =>
      intro st hk hInv
      cases hstep : optStep g swaps st with
      | none =>
          refine ⟨0, fun m hm => ?_⟩
          cases m with
          | zero => rfl
          | succ m' =>
              show optimizeCachedGo g swaps (m' + 1) st = st
              unfold optimizeCachedGo
              rw [hstep]
      | some st' =>
          obtain ⟨hInv', hlt, hmem⟩ := optStep_spec g N chars m0 eE eU eF tau sc0
            hg hm0chars hm0len swaps hswaps st st' hInv hstep
          have hcard : ((scoreVals g N (tau - eE - eU - eF) m0
              (scissorSet g m0 sc0)).filter fun v => st'.2.2 < v).card < k := by
            rw [← hk]
            exact filter_card_lt _ _ _ hlt hmem
          obtain ⟨n, hn⟩ := ih _ hcard st' rfl hInv'
          refine ⟨n + 1, fun m hm => ?_⟩
          cases m with
          | zero => omega
          | succ m' =>
              show optimizeCachedGo g swaps (m' + 1) st =
                optimizeCachedGo g swaps (n + 1) st
              unfold optimizeCachedGo
              rw [hstep]
              exact hn m' (by omega)

theorem foldl_best_mono (f : ColState → ℕ → ColState)
    (hf : ∀ st i, st.bestScore ≤ (f st i).bestScore) (l : List ℕ) (st : ColState) :
    st.bestScore ≤ (l.foldl f st).bestScore := by
  induction l generalizing st with
  | nil => exact le_refl _
  | cons x t ih => exact le_trans (hf st x) (ih (f st x))

/-- Through the whole `col_perms` recursion the best score only grows: the
`k = 1` leaf replaces it only by a strictly larger `total_score`. -/
theorem colPerms_best_mono (g : LayoutGeneration) :
    ∀ (k : ℕ) (st : ColState), st.bestScore ≤ (colPerms g k st).bestScore := by
  intro k
  induction k using Nat.strong_induction_on with
  | _ k ih =>
      match k with
      | 0 =>
          intro st
          unfold colPerms
          exact le_refl _
      | 1 =>
          intro st
          unfold colPerms
          by_cases h : st.cache.totalScore > st.bestScore
          · rw [if_pos h]
            exact le_of_lt h
          · rw [if_neg h]
      | k + 2 =>
          intro st
          unfold colPerms
          refine foldl_best_mono _ (fun st' i => ?_) _ st
          dsimp only
          exact le_trans (ih (k + 1) (by omega) st') (le_refl _)

theorem ColState_bestScore_mk (a : FastLayout) (b : LayoutCache)
    (c : FastLayout) (d : ℚ) : (ColState.mk a b c d).bestScore = d := rfl

theorem optimizeCols_eq_some (g : LayoutGeneration) (L : FastLayout)
    (cache : LayoutCache) (s : ℚ) :
    optimizeCols g L cache (some s) =
      ({ matrix := ((colPerms g 6
            ⟨swapIndexes (colPerms g 6 ⟨L, cache, L, s⟩).layout,
              (colPerms g 6 ⟨L, cache, L, s⟩).cache,
              (colPerms g 6 ⟨L, cache, L, s⟩).best,
              (colPerms g 6 ⟨L, cache, L, s⟩).bestScore⟩).best).matrix,
         score := (colPerms g 6
            ⟨swapIndexes (colPerms g 6 ⟨L, cache, L, s⟩).layout,
              (colPerms g 6 ⟨L, cache, L, s⟩).cache,
              (colPerms g 6 ⟨L, cache, L, s⟩).best,
              (colPerms g 6 ⟨L, cache, L, s⟩).bestScore⟩).bestScore },
       (colPerms g 6
            ⟨swapIndexes (colPerms g 6 ⟨L, cache, L, s⟩).layout,
              (colPerms g 6 ⟨L, cache, L, s⟩).cache,
              (colPerms g 6 ⟨L, cache, L, s⟩).best,
              (colPerms g 6 ⟨L, cache, L, s⟩).bestScore⟩).cache) := rfl

/-- `colPerms_best_mono` with the starting state destructured into its four
fields, so that the lower bound is the literal fourth component. -/
theorem colPerms_best_mono2 (g : LayoutGeneration) (k : ℕ) (a : FastLayout)
    (b : LayoutCache) (c : FastLayout) (d : ℚ) :
    d ≤ (colPerms g k ⟨a, b, c, d⟩).bestScore :=
  colPerms_best_mono g k ⟨a, b, c, d⟩

/-- `optimize_cols` never returns a layout scored below the score it was
handed: the running best starts at that score and only grows. -/
theorem optimizeCols_score_ge (g : LayoutGeneration) (L : FastLayout)
    (cache : LayoutCache) (s : ℚ) :
    s ≤ ((optimizeCols g L cache (some s)).1).score := by
  rw [optimizeCols_eq_some]
  have hfst : ∀ (a : FastLayout) (b : LayoutCache), ((a, b) : _ × _).1 = a :=
    fun a b => rfl
  rw [hfst]
  have hsc : ∀ (m : List Char) (q : ℚ),
      ({ matrix := m, score := q } : FastLayout).score = q := fun m q => rfl
  rw [hsc]
  exact le_trans (colPerms_best_mono2 g 6 L cache L s)
    (colPerms_best_mono2 g 6
      (swapIndexes (colPerms g 6 ⟨L, cache, L, s⟩).layout)
      (colPerms g 6 ⟨L, cache, L, s⟩).cache
      (colPerms g 6 ⟨L, cache, L, s⟩).best
      (colPerms g 6 ⟨L, cache, L, s⟩).bestScore)

theorem halfMin_gt_min : F64MIN < F64MIN / 2 := by
  unfold F64MIN F64MAX
  norm_num

theorem optimizeGo_exit (g : LayoutGeneration) (swaps : List PosPair)
    (innerFuel fuel : ℕ) (L : FastLayout) (C : LayoutCache) (wcs opt : ℚ)
    (h : ¬ (wcs < opt)) :
    optimizeGo g swaps innerFuel fuel L C wcs opt = ({ L with score := opt }, C) := by
  cases fuel with
  | zero => rfl
  | succ f =>
      unfold optimizeGo
      rw [if_neg h]

/-- With at least one unit of outer fuel, `optimize` runs its loop body
exactly once and then stops: `optimize_cols` never hands back a layout score
below the `optimize_cached` score it was given. -/
theorem optimizeGo_once (g : LayoutGeneration) (swaps : List PosPair)
    (innerFuel o : ℕ) (L : FastLayout) (C : LayoutCache) :
    optimizeGo g swaps innerFuel (o + 1) L C F64MIN (F64MIN / 2) =
      (let r := optimizeCachedGo g swaps innerFuel (L, C, F64MIN / 2)
       let rc := optimizeCols g r.1 r.2.1 (some r.2.2)
       ({ rc.1 with score := r.2.2 }, rc.2)) := by
  unfold optimizeGo
  rw [if_pos halfMin_gt_min]
  dsimp only
  rw [optimizeGo_exit g swaps innerFuel o _ _ _ _
    (not_lt.mpr (optimizeCols_score_ge g _ _ _))]

/-! ### Concrete instances

Minimal engines and layouts used to instantiate the general theorems and to
evaluate the definitions on closed inputs. -/

/-- The qwerty reference matrix as a list of 30 characters. -/
def qwertyM : List Char :=
  ['q', 'w', 'e', 'r', 't', 'y', 'u', 'i', 'o', 'p',
   'a', 's', 'd', 'f', 'g', 'h', 'j', 'k', 'l', ';',
   'z', 'x', 'c', 'v', 'b', 'n', 'm', ',', '.', '/']

/-- The qwerty layout with cached score 0. -/
def QW : FastLayout := { matrix := qwertyM, score := 0 }

/-- A family of minimal engines: every frequency table and weight vanishes
except the raw bigram table `bg` (read only by `scissor_score`), the
scissors weight `sw` and the `fspeed_vals` list `fv`; the trigram list is
empty and the classifier sends every trigram to `Other`. -/
def zengine (bg : Char → Char → ℚ) (sw : ℚ) (fv : List (PosPair × ℚ)) :
    LayoutGeneration :=
  { characters := fun _ => 0
    bigrams := bg
    skipgrams := fun _ _ => 0
    skipgrams2 := fun _ _ => 0
    skipgrams3 := fun _ _ => 0
    trigrams := []
    fspeedVals := fv
    effortMap := []
    weightedBigrams := fun _ _ => 0
    perCharTrigrams := fun _ _ => []
    weights :=
      { heatmap := 0, lateralPenalty := 0, dsfbRatio := 0, dsfbRatio2 := 0
        dsfbRatio3 := 0, fspeed := 0, scissors := sw, inrolls := 0
        outrolls := 0, onehands := 0, alternates := 0, alternatesSfs := 0
        redirects := 0, badRedirects := 0
        maxFingerUse :=
          { pinky := 0, ring := 0, middle := 0, index := 0, penalty := 0 } }
    classify := fun _ _ => TrigramPattern.Other }

theorem zengine_charEffort (bg : Char → Char → ℚ) (sw : ℚ)
    (fv : List (PosPair × ℚ)) (L : FastLayout) (i : ℕ) :
    charEffort (zengine bg sw fv) L i = 0 := by
  simp [charEffort, zengine]

theorem zengine_colUsage (bg : Char → Char → ℚ) (sw : ℚ)
    (fv : List (PosPair × ℚ)) (L : FastLayout) (c : ℕ) :
    colUsage (zengine bg sw fv) L c = 0 := by
  simp [colUsage, zengine]

theorem zengine_pairFspeed (bg : Char → Char → ℚ) (sw : ℚ)
    (fv : List (PosPair × ℚ)) (L : FastLayout) (p : PosPair) (d : ℚ) :
    pairFspeed (zengine bg sw fv) L p d = 0 := by
  simp [pairFspeed, zengine]

theorem zengine_colFspeed (bg : Char → Char → ℚ) (sw : ℚ)
    (fv : List (PosPair × ℚ)) (L : FastLayout) (c : ℕ) :
    colFspeed (zengine bg sw fv) L c = 0 := by
  unfold colFspeed
  refine List.sum_eq_zero ?_
  intro x hx
  rw [List.mem_map] at hx
  obtain ⟨pd, _, hpd⟩ := hx
  rw [← hpd]
  exact zengine_pairFspeed bg sw fv L pd.1 pd.2

theorem zengine_trigramScoreStep (bg : Char → Char → ℚ) (sw : ℚ)
    (fv : List (PosPair × ℚ)) (L : FastLayout) (f : TrigramStats)
    (tf : Trigram × ℚ) :
    trigramScoreStep (zengine bg sw fv) L f tf = f := rfl

theorem zengine_trigramScoreIter (bg : Char → Char → ℚ) (sw : ℚ)
    (fv : List (PosPair × ℚ)) (L : FastLayout) (ts : TrigramData) :
    trigramScoreIter (zengine bg sw fv) L ts = 0 := by
  unfold trigramScoreIter
  have h : ts.foldl (trigramScoreStep (zengine bg sw fv) L) {} =
      ({} : TrigramStats) := by
    induction ts with
    | nil => rfl
    | cons t ts ih =>
        rw [List.foldl_cons, zengine_trigramScoreStep]
        exact ih
  rw [h]
  simp [trigramWeightSum, zengine]

theorem zengine_trigramCharScore (bg : Char → Char → ℚ) (sw : ℚ)
    (fv : List (PosPair × ℚ)) (L : FastLayout) (p : PosPair) :
    trigramCharScore (zengine bg sw fv) L p = 0 := by
  unfold trigramCharScore
  exact zengine_trigramScoreIter bg sw fv L _

theorem zengine_effortScoreT (bg : Char → Char → ℚ) (sw : ℚ)
    (fv : List (PosPair × ℚ)) (L : FastLayout) :
    effortScoreT (zengine bg sw fv) L = 0 := by
  unfold effortScoreT
  simp [zengine_charEffort]

theorem zengine_usageScoreT (bg : Char → Char → ℚ) (sw : ℚ)
    (fv : List (PosPair × ℚ)) (L : FastLayout) :
    usageScoreT (zengine bg sw fv) L = 0 := by
  unfold usageScoreT
  simp [zengine_colUsage]

theorem zengine_fspeedScoreT (bg : Char → Char → ℚ) (sw : ℚ)
    (fv : List (PosPair × ℚ)) (L : FastLayout) :
    fspeedScoreT (zengine bg sw fv) L = 0 := by
  unfold fspeedScoreT
  simp [zengine_colFspeed]

theorem zengine_initCache_totalScore (bg : Char → Char → ℚ) (sw : ℚ)
    (fv : List (PosPair × ℚ)) (L : FastLayout) :
    (initCache (zengine bg sw fv) L).totalScore =
      -(scissorScore (zengine bg sw fv) L) := by
  rw [initCache_totalScore, zengine_trigramScoreIter, zengine_effortScoreT,
    zengine_usageScoreT, zengine_fspeedScoreT]
  ring

theorem zengine_guard (bg : Char → Char → ℚ) (sw : ℚ)
    (fv : List (PosPair × ℚ)) (L : FastLayout)
    (h : -(scissorScore (zengine bg sw fv) L) < F64MAX) :
    (initCache (zengine bg sw fv) L).totalScore < F64MAX := by
  rw [zengine_initCache_totalScore]
  exact h

theorem zengine_scoreSwapCached (bg : Char → Char → ℚ) (sw : ℚ)
    (fv : List (PosPair × ℚ)) (L : FastLayout) (i j : ℕ)
    (hi : i < 30) (hj : j < 30)
    (hg : -(scissorScore (zengine bg sw fv) L) < F64MAX) :
    scoreSwapCached (zengine bg sw fv) L (i, j) (initCache (zengine bg sw fv) L) =
      -(if affectsScissor (i, j)
        then scissorScore (zengine bg sw fv) (swapNoBounds L (i, j))
        else scissorScore (zengine bg sw fv) L) := by
  have hcol1 : I_TO_COL.getD i 0 < 8 := I_TO_COL_lt i hi
  have hcol2 : I_TO_COL.getD j 0 < 8 := I_TO_COL_lt j hj
  unfold scoreSwapCached scoreSwapCachedSt
  rw [if_pos (zengine_guard bg sw fv L hg)]
  dsimp only
  rw [zengine_trigramCharScore, zengine_trigramCharScore,
    initCache_trigramsTotal, zengine_trigramScoreIter,
    initCache_effortTotal, zengine_effortScoreT,
    initCache_effort_getD _ L i hi, initCache_effort_getD _ L j hj,
    zengine_charEffort, zengine_charEffort, zengine_charEffort,
    zengine_charEffort, initCache_scissors]
  by_cases hcol : I_TO_COL.getD i 0 = I_TO_COL.getD j 0
  · rw [if_pos hcol, if_pos hcol,
      initCache_usageTotal, zengine_usageScoreT,
      initCache_usage_getD _ L _ hcol1,
      initCache_fspeedTotal, zengine_fspeedScoreT,
      initCache_fspeed_getD _ L _ hcol1]
    simp only [zengine_colUsage, zengine_colFspeed]
    ring
  · rw [if_neg hcol, if_neg hcol,
      initCache_usageTotal, zengine_usageScoreT,
      initCache_usage_getD _ L _ hcol1, initCache_usage_getD _ L _ hcol2,
      initCache_fspeedTotal, zengine_fspeedScoreT,
      initCache_fspeed_getD _ L _ hcol1, initCache_fspeed_getD _ L _ hcol2]
    simp only [zengine_colUsage, zengine_colFspeed]
    ring

theorem zengine_acceptSwap_totalScore (bg : Char → Char → ℚ) (sw : ℚ)
    (fv : List (PosPair × ℚ)) (L : FastLayout) (i j : ℕ)
    (hi : i < 30) (hj : j < 30) :
    ((acceptSwap (zengine bg sw fv) L (i, j)
        (initCache (zengine bg sw fv) L)).2).totalScore =
      -(if affectsScissor (i, j)
        then scissorScore (zengine bg sw fv) (swapNoBounds L (i, j))
        else scissorScore (zengine bg sw fv) L) := by
  have hcol1 : I_TO_COL.getD i 0 < 8 := I_TO_COL_lt i hi
  have hcol2 : I_TO_COL.getD j 0 < 8 := I_TO_COL_lt j hj
  have hp1 : ((i, j) : PosPair).1 = i := rfl
  have hp2 : ((i, j) : PosPair).2 = j := rfl
  rw [acceptSwap_snd_totalScore_eq]
  unfold cacheTotal
  rw [acceptSwap_snd_trigramsTotal, acceptSwap_snd_scissors,
    acceptSwap_snd_effortTotal, acceptSwap_snd_usageTotal,
    acceptSwap_snd_fspeedTotal]
  rw [hp1, hp2]
  rw [zengine_trigramCharScore, zengine_trigramCharScore,
    initCache_trigramsTotal, zengine_trigramScoreIter,
    initCache_effortTotal, zengine_effortScoreT,
    initCache_effort_getD _ L i hi, initCache_effort_getD _ L j hj,
    zengine_charEffort, zengine_charEffort, zengine_charEffort,
    zengine_charEffort, initCache_scissors]
  by_cases hcol : I_TO_COL.getD i 0 = I_TO_COL.getD j 0
  · rw [if_pos hcol, if_pos hcol,
      initCache_usageTotal, zengine_usageScoreT,
      initCache_usage_getD _ L _ hcol1,
      initCache_fspeedTotal, zengine_fspeedScoreT,
      initCache_fspeed_getD _ L _ hcol1]
    simp only [zengine_colUsage, zengine_colFspeed]
    ring
  · rw [if_neg hcol, if_neg hcol,
      initCache_usageTotal, zengine_usageScoreT,
      initCache_usage_getD _ L _ hcol1, initCache_usage_getD _ L _ hcol2,
      initCache_fspeedTotal, zengine_fspeedScoreT,
      initCache_fspeed_getD _ L _ hcol1, initCache_fspeed_getD _ L _ hcol2]
    simp only [zengine_colUsage, zengine_colFspeed]
    ring

/-- Bigram table giving frequency 1 to the pair h→t and 0 elsewhere. -/
def bgHT : Char → Char → ℚ := fun c1 c2 => if c1 = 'h' ∧ c2 = 't' then 1 else 0

/-- Engine whose only nonzero inputs are the h→t bigram and scissors
weight 1. -/
def gC1 : LayoutGeneration := zengine bgHT 1 []

/-- Bigram table giving frequency 1 to the pair q→s and 0 elsewhere. -/
def bgQS : Char → Char → ℚ := fun c1 c2 => if c1 = 'q' ∧ c2 = 's' then 1 else 0

/-- Engine whose only nonzero inputs are the q→s bigram and scissors
weight -1. -/
def gC2 : LayoutGeneration := zengine bgQS (-1) []

/-- The all-zero engine. -/
def gC3 : LayoutGeneration := zengine (fun _ _ => 0) 0 []

/-- The witness engine: all-zero frequencies but a well-formed 48-entry
`fspeed_vals` list (each distance 0). -/
def gW : LayoutGeneration :=
  zengine (fun _ _ => 0) 0 (getSfbIndices.map fun p => (p, 0))

theorem map_fst_zip_zero (l : List PosPair) :
    (l.map fun p => (p, (0 : ℚ))).map Prod.fst = l := by
  induction l with
  | nil => rfl
  | cons x xs ih => simp only [List.map_cons, ih]

/-- The witness engine satisfies the cache-agreement hypotheses at
trigram precision 1000 over the qwerty character set. -/
theorem gW_hyps : EngineHyps gW 1000 qwertyM := by
  refine ⟨?_, ?_, ?_⟩
  · exact map_fst_zip_zero getSfbIndices
  · intro a b _ _
    show (List.Perm [] _)
    simp [gW, zengine]
  · intro t m a b _ _
    rfl

theorem qw_len : QW.matrix.length = 30 := by decide

theorem qw_chars : ∀ c ∈ QW.matrix, c ∈ qwertyM := fun c hc => hc

theorem gC3_scissor (L : FastLayout) :
    scissorScore (zengine (fun _ _ => 0) 0 []) L = 0 := by
  simp [scissorScore, zengine]

set_option maxHeartbeats 2000000 in
/-- C1: Cache coherence fails: `AFFECTS_SCISSOR` marks position 12 as not
affecting scissors although the scissor pair (12, 4) (qwerty d–t) contains
it, so the swap (12, 15) — both endpoints masked off — leaves the cached
`scissors` field at its stale value 0 while a full recompute on the layout
`accept_swap` returns yields 1; the two do not even agree to 7 decimal
digits. -/
theorem claim_C1_affects_scissor_mask :
    affectsScissor (12, 15) = false ∧
    (∃ p ∈ getScissorIndices, p.1 = 12 ∨ p.2 = 12) ∧
    ((acceptSwap gC1 QW (12, 15) (initCache gC1 QW)).2).scissors = 0 ∧
    scissorScore gC1 ((acceptSwap gC1 QW (12, 15) (initCache gC1 QW)).1) = 1 ∧
    ¬ approxEqual ((acceptSwap gC1 QW (12, 15) (initCache gC1 QW)).2).scissors
        (scissorScore gC1 ((acceptSwap gC1 QW (12, 15) (initCache gC1 QW)).1)) 7 := by
  have hneg : ¬ (affectsScissor (12, 15) = true) := by decide
  have h3 : ((acceptSwap gC1 QW (12, 15) (initCache gC1 QW)).2).scissors = 0 := by
    rw [acceptSwap_snd_scissors, if_neg hneg, initCache_scissors]
    simp +decide [scissorScore, getScissorIndices, fromQwerty, qwertyPos, gC1,
      zengine, bgHT, QW, qwertyM]
  have h4 : scissorScore gC1
      ((acceptSwap gC1 QW (12, 15) (initCache gC1 QW)).1) = 1 := by
    rw [acceptSwap_fst]
    simp +decide [scissorScore, getScissorIndices, fromQwerty, qwertyPos, gC1,
      zengine, bgHT, QW, qwertyM, swapNoBounds, swapChars]
  refine ⟨by decide, ⟨(12, 4), by decide, Or.inl rfl⟩, h3, h4, ?_⟩
  rw [h3, h4]
  intro hax
  unfold approxEqual truncQ at hax
  norm_num at hax

theorem gC3_ssc : scoreSwapCached gC3 QW (0, 1) (initCache gC3 QW) = 0 := by
  unfold gC3
  rw [zengine_scoreSwapCached (fun _ _ => 0) 0 [] QW 0 1 (by norm_num) (by norm_num)
    (by rw [gC3_scissor]; unfold F64MAX; norm_num)]
  by_cases h : affectsScissor (0, 1)
  · rw [if_pos h, gC3_scissor]; ring
  · rw [if_neg h, gC3_scissor]; ring

/-- On the all-zero engine the single candidate swap (0, 1) is accepted by
`best_swap_cached`: its score 0 beats the starting best `f64::MIN / 2`. -/
theorem gC3_bestSwap :
    bestSwapCached gC3 QW (initCache gC3 QW) (some (F64MIN / 2)) [(0, 1)] =
      (some (0, 1), 0) := by
  unfold bestSwapCached
  rw [List.foldl_cons, List.foldl_nil]
  dsimp only [Option.getD_some]
  rw [gC3_ssc]
  rw [if_pos (by unfold F64MIN F64MAX; norm_num)]

theorem gC3_optStep :
    optStep gC3 [(0, 1)] (QW, initCache gC3 QW, F64MIN / 2) =
      some ((acceptSwap gC3 QW (0, 1) (initCache gC3 QW)).1,
        (acceptSwap gC3 QW (0, 1) (initCache gC3 QW)).2, 0) := by
  unfold optStep
  rw [gC3_bestSwap]

theorem gC3_accept_total :
    ((acceptSwap gC3 QW (0, 1) (initCache gC3 QW)).2).totalScore = 0 := by
  unfold gC3
  rw [zengine_acceptSwap_totalScore (fun _ _ => 0) 0 [] QW 0 1 (by norm_num)
    (by norm_num)]
  by_cases h : affectsScissor (0, 1)
  · rw [if_pos h, gC3_scissor]; ring
  · rw [if_neg h, gC3_scissor]; ring

theorem gC3_init_total : (initCache gC3 QW).totalScore = 0 := by
  unfold gC3
  rw [zengine_initCache_totalScore, gC3_scissor]
  ring

/-- C3 counterexample: on the all-zero engine, `optimize_cached`'s first
iteration accepts the swap (0, 1) (its score 0 beats the starting best
`f64::MIN / 2`), yet `cache.total_score` after the `accept_swap` equals the
`total_score` before it — the accepted swap does not strictly increase it. -/
theorem claim_C3_cx :
    ∃ st', optStep gC3 [(0, 1)] (QW, initCache gC3 QW, F64MIN / 2) = some st' ∧
      ¬ ((initCache gC3 QW).totalScore < (st'.2.1).totalScore) := by
  refine ⟨((acceptSwap gC3 QW (0, 1) (initCache gC3 QW)).1,
    (acceptSwap gC3 QW (0, 1) (initCache gC3 QW)).2, 0), gC3_optStep, ?_⟩
  rw [gC3_accept_total, gC3_init_total]
  norm_num

/-- C3 (amended): what the hill-climb loop guarantees is strict increase of
the running best score, not of `cache.total_score`: whenever the loop body
of `optimize_cached` accepts a swap, the new running best strictly exceeds
the old one, and — when the (inert) pruning guard let the swap be scored —
the `total_score` written by `accept_swap` equals that new running best.
The first accepted swap need not exceed the total at entry, because the
running best starts at `f64::MIN / 2`. -/
theorem claim_C3_accepted_swap (g : LayoutGeneration) (swaps : List PosPair)
    (st : FastLayout × LayoutCache × ℚ)
    (h : (optStep g swaps st).isSome = true) :
    st.2.2 < ((optStep g swaps st).getD st).2.2 ∧
      (st.2.1.totalScore < F64MAX →
        (((optStep g swaps st).getD st).2.1).totalScore =
          ((optStep g swaps st).getD st).2.2) := by
  have hspec := bestSwapCached_spec g st.1 st.2.1 (some st.2.2) swaps
  unfold optStep at h ⊢
  cases hbs : bestSwapCached g st.1 st.2.1 (some st.2.2) swaps with
  | mk o ns =>
      rw [hbs] at h hspec
      cases o with
      | none => simp at h
      | some s =>
          rcases hspec with ⟨hnone, _⟩ | ⟨sx, hsx, _, hval, hgt⟩
          · simp at hnone
          · have hss : s = sx := by simpa using hsx
            subst hss
            dsimp only [Option.getD_some] at hgt hval ⊢
            refine ⟨hgt, fun hguard => ?_⟩
            rw [acceptSwap_totalScore g st.1 s st.2.1 hguard]
            exact hval.symm

/-- Witness for C3: the all-zero engine with candidate list [(0, 1)]
satisfies the hypothesis (the step accepts a swap) and the conclusion. -/
theorem claim_C3_accepted_swap_witness :
    (optStep gC3 [(0, 1)] (QW, initCache gC3 QW, F64MIN / 2)).isSome = true ∧
      ((QW, initCache gC3 QW, F64MIN / 2) :
          FastLayout × LayoutCache × ℚ).2.2 <
        ((optStep gC3 [(0, 1)] (QW, initCache gC3 QW, F64MIN / 2)).getD
          (QW, initCache gC3 QW, F64MIN / 2)).2.2 ∧
      (((QW, initCache gC3 QW, F64MIN / 2) :
          FastLayout × LayoutCache × ℚ).2.1.totalScore < F64MAX →
        (((optStep gC3 [(0, 1)] (QW, initCache gC3 QW, F64MIN / 2)).getD
            (QW, initCache gC3 QW, F64MIN / 2)).2.1).totalScore =
          ((optStep gC3 [(0, 1)] (QW, initCache gC3 QW, F64MIN / 2)).getD
            (QW, initCache gC3 QW, F64MIN / 2)).2.2) := by
  have hsome : (optStep gC3 [(0, 1)] (QW, initCache gC3 QW, F64MIN / 2)).isSome
      = true := by
    rw [gC3_optStep]
    rfl
  obtain ⟨h1, h2⟩ := claim_C3_accepted_swap gC3 [(0, 1)]
    (QW, initCache gC3 QW, F64MIN / 2) hsome
  exact ⟨hsome, h1, h2⟩

/-- C5 (amended): the pruning guard of `score_swap_cached` is the comparison
`cache.total_score < f64::MAX`, which is not permanently true: for a total
strictly below `f64::MAX` the trigram-evaluation branch runs and returns the
component deltas, while for a total at or above `f64::MAX` — including the
finite representable value `f64::MAX` itself — the sentinel is returned and
the swap is dropped. -/
theorem claim_C5_pruning_guard (g : LayoutGeneration) (L : FastLayout)
    (p : PosPair) (C : LayoutCache) :
    (C.totalScore < F64MAX →
      scoreSwapCached g L p C =
        C.trigramsTotal - trigramCharScore g L p
            + trigramCharScore g (swapNoBounds L p) p
          - (if affectsScissor p then scissorScore g (swapNoBounds L p)
              else C.scissors)
          - (C.effortTotal - C.effort.getD p.1 0 - C.effort.getD p.2 0
              + charEffort g (swapNoBounds L p) p.1
              + charEffort g (swapNoBounds L p) p.2)
          - (if I_TO_COL.getD p.1 0 = I_TO_COL.getD p.2 0 then
              C.usageTotal - C.usage.getD (I_TO_COL.getD p.1 0) 0
                + colUsage g (swapNoBounds L p) (I_TO_COL.getD p.1 0)
            else
              C.usageTotal - C.usage.getD (I_TO_COL.getD p.1 0) 0
                - C.usage.getD (I_TO_COL.getD p.2 0) 0
                + colUsage g (swapNoBounds L p) (I_TO_COL.getD p.1 0)
                + colUsage g (swapNoBounds L p) (I_TO_COL.getD p.2 0))
          - (if I_TO_COL.getD p.1 0 = I_TO_COL.getD p.2 0 then
              C.fspeedTotal - C.fspeed.getD (I_TO_COL.getD p.1 0) 0
                + colFspeed g (swapNoBounds L p) (I_TO_COL.getD p.1 0)
            else
              C.fspeedTotal - C.fspeed.getD (I_TO_COL.getD p.1 0) 0
                - C.fspeed.getD (I_TO_COL.getD p.2 0) 0
                + colFspeed g (swapNoBounds L p) (I_TO_COL.getD p.1 0)
                + colFspeed g (swapNoBounds L p) (I_TO_COL.getD p.2 0))) ∧
    (¬ C.totalScore < F64MAX → scoreSwapCached g L p C = SENTINEL) := by
  constructor
  · intro hguard
    have hinv : swapNoBounds (swapNoBounds L p) p = L := swapNoBounds_involutive L p
    unfold scoreSwapCached scoreSwapCachedSt
    rw [if_pos hguard]
    dsimp only
    rw [hinv]
  · intro hguard
    exact scoreSwapCached_sentinel g L p C hguard

/-- The all-zero cache used by the C5 counterexample, with a chosen
`total_score`. -/
def emptyCache (t : ℚ) : LayoutCache :=
  { effort := [], effortTotal := 0, scissors := 0, usage := [], usageTotal := 0
    fspeed := [], fspeedTotal := 0, trigramsTotal := 0, totalScore := t }

/-- C5 counterexample: a cache whose `total_score` is the finite
representable value `f64::MAX` is pruned — `score_swap_cached` returns the
sentinel — while the same cache with total 0 is evaluated (to 0, not the
sentinel): the guard `< f64::MAX` is not permanently true on finite totals.
-/
theorem claim_C5_cx :
    scoreSwapCached gC3 QW (0, 1) (emptyCache F64MAX) = SENTINEL ∧
      scoreSwapCached gC3 QW (0, 1) (emptyCache 0) ≠ SENTINEL := by
  constructor
  · exact scoreSwapCached_sentinel gC3 QW (0, 1) (emptyCache F64MAX)
      (by unfold emptyCache; norm_num)
  · have hval : scoreSwapCached gC3 QW (0, 1) (emptyCache 0) = 0 := by
      unfold scoreSwapCached scoreSwapCachedSt
      rw [if_pos (by unfold emptyCache F64MAX; norm_num)]
      dsimp only
      unfold gC3
      rw [zengine_trigramCharScore, zengine_trigramCharScore]
      by_cases hcol : I_TO_COL.getD (0, 1).1 0 = I_TO_COL.getD (0, 1).2 0
      · simp only [if_pos hcol]
        simp [emptyCache, zengine_colUsage, zengine_colFspeed, zengine_charEffort,
          gC3_scissor]
      · simp only [if_neg hcol]
        simp [emptyCache, zengine_colUsage, zengine_colFspeed, zengine_charEffort,
          gC3_scissor]
    rw [hval]
    unfold SENTINEL F64MIN F64MAX
    norm_num

/-- C6: speculation non-destructiveness: `score_swap_cached` hands back the
layout exactly as it received it — the source swaps the pair in place and
swaps it back before returning in both the evaluation branch and the
sentinel branch (the cache is taken by shared reference and never written,
which the embedding reflects by not returning a cache at all). -/
theorem claim_C6_score_swap_restores (g : LayoutGeneration) (L : FastLayout)
    (s : PosPair) (C : LayoutCache) :
    (scoreSwapCachedSt g L s C).1 = L := by
  unfold scoreSwapCachedSt
  by_cases hguard : C.totalScore < F64MAX
  · rw [if_pos hguard]
    exact swapNoBounds_involutive L s
  · rw [if_neg hguard]
    exact swapNoBounds_involutive L s

/-- C7 (amended): `get_scissor_indices` returns 26 position pairs, not 28
(the `scissor_indices: [PosPair; 28]` field declaration does not match). -/
theorem claim_C7_scissor_count : getScissorIndices.length = 26 := by decide

/-- C7 counterexample: the list does not have 28 entries as the spec's
"scissor pair list (28 pairs)" states. -/
theorem claim_C7_cx : ¬ getScissorIndices.length = 28 := by decide

/-- C8: `bigram_percent` returns a value exactly for the sixteen recognized
selector strings (the bigram/sfb, skipgram/dsfb, skipgram2/dsfb2 and
skipgram3/dsfb3 families, each with four spellings) and panics — modelled as
`none` — on every other selector. -/
theorem claim_C8_bigram_percent_selectors (g : LayoutGeneration)
    (L : FastLayout) (t : String) :
    (bigramPercent g L t).isSome = true ↔
      (t ∈ (["bigram", "bigrams", "sfb", "sfbs"] : List String) ∨
       t ∈ (["skipgram", "skipgrams", "dsfb", "dsfbs"] : List String) ∨
       t ∈ (["skipgram2", "skipgrams2", "dsfb2", "dsfbs2"] : List String) ∨
       t ∈ (["skipgram3", "skipgrams3", "dsfb3", "dsfbs3"] : List String)) := by
  unfold bigramPercent bigramPercentData
  split_ifs with h1 h2 h3 h4
  · simp [h1]
  · simp [h2]
  · simp [h3]
  · simp [h4]
  · simp [h1, h2, h3, h4]

/-- C9: `initialize_cache` computes `trigrams_total` from exactly the first
1000 trigrams, whatever trigram precision the engine was built with, while
`per_char_trigrams` — the index the swap deltas read — is truncated to the
configured precision; the two refer to the same trigram set only when the
precision is 1000. -/
theorem claim_C9_trigram_precision (data : LanguageData) (w : Weights)
    (ktype : KeyboardType) (dists : List ℚ) (p : ℕ)
    (classify : Trigram → List Char → TrigramPattern) (L : FastLayout) :
    (initCache (mkEngine data w ktype dists p classify) L).trigramsTotal =
        trigramScoreIter (mkEngine data w ktype dists p classify) L
          (data.trigrams.take 1000) ∧
      (mkEngine data w ktype dists p classify).perCharTrigrams =
        perCharTrigramsF data.trigrams (possibleChars data) p :=
  ⟨initCache_trigramsTotal _ L, rfl⟩

theorem optimizeIterCount_exit (g : LayoutGeneration) (swaps : List PosPair)
    (innerFuel fuel : ℕ) (L : FastLayout) (C : LayoutCache) (wcs opt : ℚ)
    (h : ¬ (wcs < opt)) :
    optimizeIterCount g swaps innerFuel fuel L C wcs opt = 0 := by
  cases fuel with
  | zero => rfl
  | succ f =>
      unfold optimizeIterCount
      rw [if_neg h]

/-- C10: with any positive outer fuel, the `while with_col_score <
optimized_score` loop of `optimize` executes its body exactly once: the
first iteration runs (the loop enters with `f64::MIN < f64::MIN / 2`), and
`optimize_cols` never hands back a layout score below the `optimize_cached`
score it was given, so the comparison fails at the second test. -/
theorem claim_C10_optimize_loop_once (g : LayoutGeneration)
    (swaps : List PosPair) (innerFuel n : ℕ) (L : FastLayout)
    (C : LayoutCache) :
    optimizeIterCount g swaps innerFuel (n + 1) L C F64MIN (F64MIN / 2) = 1 := by
  unfold optimizeIterCount
  rw [if_pos halfMin_gt_min]
  dsimp only
  rw [optimizeIterCount_exit g swaps innerFuel n _ _ _ _
    (not_lt.mpr (optimizeCols_score_ge g _ _ _))]

/-- C2 (amended): on a cache freshly initialized from the layout,
`score_swap_cached` either returns the sentinel or returns exactly the
`total_score` a full `initialize_cache` recompute on the swapped layout
would produce — not the value of `score`, which reads the whole trigram
list instead of the first 1000 and applies two extra sign-inversion blocks.
The agreement moreover needs the swap either to be flagged by
`affects_scissor` or to actually leave the scissor score unchanged (the
masking bug of C1 otherwise makes the cached `scissors` stale). -/
theorem claim_C2_swap_score_vs_recompute (g : LayoutGeneration)
    (chars : List Char) (hg : EngineHyps g 1000 chars) (L : FastLayout)
    (i j : ℕ) (hchars : ∀ c ∈ L.matrix, c ∈ chars)
    (hi : i < 30) (hj : j < 30) (hij : i ≠ j) (hlen : L.matrix.length = 30)
    (hsc : affectsScissor (i, j) = true ∨
      scissorScore g (swapNoBounds L (i, j)) = scissorScore g L) :
    scoreSwapCached g L (i, j) (initCache g L) =
        (initCache g (swapNoBounds L (i, j))).totalScore ∨
      scoreSwapCached g L (i, j) (initCache g L) = SENTINEL := by
  by_cases hguard : (initCache g L).totalScore < F64MAX
  · left
    rw [scoreSwapCached_value g 1000 chars hg L (initCache g L) i j hchars
      (fun k hk => initCache_effort_getD g L k hk)
      (fun c hc => initCache_usage_getD g L c hc)
      (fun c hc => initCache_fspeed_getD g L c hc) hi hj hij hlen hguard]
    rw [initCache_trigramsTotal, initCache_effortTotal, initCache_usageTotal,
      initCache_fspeedTotal, initCache_scissors,
      initCache_totalScore g (swapNoBounds L (i, j))]
    rcases hsc with haff | heq
    · rw [if_pos haff]
      ring
    · by_cases haff : affectsScissor (i, j)
      · rw [if_pos haff]
        ring
      · rw [if_neg haff, heq]
        ring
  · right
    exact scoreSwapCached_sentinel g L (i, j) (initCache g L) hguard

/-- Witness for C2: the witness engine, the qwerty layout and the swap
(0, 1), whose endpoints are flagged by `affects_scissor`. -/
theorem claim_C2_swap_score_vs_recompute_witness :
    scoreSwapCached gW QW (0, 1) (initCache gW QW) =
        (initCache gW (swapNoBounds QW (0, 1))).totalScore ∨
      scoreSwapCached gW QW (0, 1) (initCache gW QW) = SENTINEL :=
  claim_C2_swap_score_vs_recompute gW qwertyM gW_hyps QW 0 1 qw_chars
    (by norm_num) (by norm_num) (by norm_num) qw_len (Or.inl (by decide))

set_option maxHeartbeats 2000000 in
/-- C2 counterexample: on the engine whose only data are the q→s bigram and
scissors weight -1, the swap (23, 25) on qwerty gets cached score 1, while
`score` on the swapped layout returns -1 (the sign-inversion block fires);
the two differ, are not approximately equal to 7 decimal digits, and the
cached score is not the sentinel either. -/
theorem claim_C2_cx :
    scoreSwapCached gC2 QW (23, 25) (initCache gC2 QW) = 1 ∧
    score gC2 (swapNoBounds QW (23, 25)) = -1 ∧
    scoreSwapCached gC2 QW (23, 25) (initCache gC2 QW) ≠ SENTINEL ∧
    ¬ approxEqual (scoreSwapCached gC2 QW (23, 25) (initCache gC2 QW))
        (score gC2 (swapNoBounds QW (23, 25))) 7 := by
  have hsc0 : scissorScore gC2 QW = -1 := by
    simp +decide [scissorScore, getScissorIndices, fromQwerty, qwertyPos, gC2,
      zengine, bgQS, QW, qwertyM]
  have hsc1 : scissorScore gC2 (swapNoBounds QW (23, 25)) = -1 := by
    simp +decide [scissorScore, getScissorIndices, fromQwerty, qwertyPos, gC2,
      zengine, bgQS, QW, qwertyM, swapNoBounds, swapChars]
  have h1 : scoreSwapCached gC2 QW (23, 25) (initCache gC2 QW) = 1 := by
    unfold gC2
    rw [zengine_scoreSwapCached bgQS (-1) [] QW 23 25 (by norm_num) (by norm_num)
      (by rw [show scissorScore (zengine bgQS (-1) []) QW = -1 from hsc0]
          unfold F64MAX; norm_num)]
    rw [if_neg (by decide)]
    rw [show scissorScore (zengine bgQS (-1) []) QW = -1 from hsc0]
    ring
  have hbase : scoreBase gC2 (swapNoBounds QW (23, 25)) = 1 := by
    unfold scoreBase
    rw [hsc1]
    have ht : trigramScoreIter gC2 (swapNoBounds QW (23, 25)) gC2.trigrams = 0 :=
      zengine_trigramScoreIter _ _ _ _ _
    rw [ht]
    have he : ∑ i ∈ Finset.range 30,
        charEffort gC2 (swapNoBounds QW (23, 25)) i = 0 := by
      simp [zengine_charEffort, gC2]
    have hu : ∑ col ∈ Finset.range 8,
        (colUsage gC2 (swapNoBounds QW (23, 25)) col
          + colFspeed gC2 (swapNoBounds QW (23, 25)) col) = 0 := by
      simp [zengine_colUsage, zengine_colFspeed, gC2]
    rw [he, hu]
    ring
  have h2 : score gC2 (swapNoBounds QW (23, 25)) = -1 := by
    unfold score
    rw [hbase]
    simp +decide [charToFinger, QW, qwertyM, swapNoBounds, swapChars,
      COL_TO_FINGER, sortBools, foldPositive]
  refine ⟨h1, h2, ?_, ?_⟩
  · rw [h1]
    unfold SENTINEL F64MIN F64MAX
    norm_num
  · rw [h1, h2]
    intro hax
    unfold approxEqual truncQ at hax
    rw [if_pos (by norm_num), if_neg (by norm_num)] at hax
    norm_num at hax
    have hceil : (⌈(-10000000 : ℚ)⌉ : ℤ) = -10000000 := by
      rw [show ((-10000000 : ℚ)) = ((-10000000 : ℤ) : ℚ) by norm_num]
      exact Int.ceil_intCast _
    rw [hceil] at hax
    norm_num at hax

/-- C4: both optimization loops terminate.  The fuel-indexed iteration of
`optimize_cached` stabilizes — beyond some finite fuel more iterations
change nothing, because every accepted swap strictly increases the running
best within the finite set of scores reachable over permutations of the
matrix — and the `optimize` loop stabilizes at outer fuel 1, since its body
runs exactly once. -/
theorem claim_C4_termination (g : LayoutGeneration) (chars : List Char)
    (hg : EngineHyps g 1000 chars) (L : FastLayout)
    (hchars : ∀ c ∈ L.matrix, c ∈ chars) (hlen : L.matrix.length = 30)
    (swaps : List PosPair)
    (hswaps : ∀ s ∈ swaps, s.1 < 30 ∧ s.2 < 30 ∧ s.1 ≠ s.2)
    (innerFuel : ℕ) (C : LayoutCache) :
    (∃ n, ∀ m, n ≤ m →
      optimizeCachedF g swaps m L (initCache g L) =
        optimizeCachedF g swaps n L (initCache g L)) ∧
    (∃ n, ∀ m, n ≤ m →
      optimizeF g swaps m innerFuel L C = optimizeF g swaps n innerFuel L C) := by
  constructor
  · have hInv : OptInv g 1000 chars L.matrix 0 0 0 0 (scissorScore g L)
        (L, initCache g L, F64MIN / 2) :=
      ⟨List.Perm.refl _,
       initCache_cacheOK g 1000 L rfl (scissorSet_base g L.matrix _),
       le_refl _⟩
    obtain ⟨n, hn⟩ := optimizeCachedGo_stab g 1000 chars L.matrix 0 0 0 0
      (scissorScore g L) hg hchars hlen swaps hswaps _
      (L, initCache g L, F64MIN / 2) rfl hInv
    exact ⟨n, fun m hm => hn m hm⟩
  · refine ⟨1, fun m hm => ?_⟩
    cases m with
    | zero => omega
    | succ m' =>
        show optimizeGo g swaps innerFuel (m' + 1) L C F64MIN (F64MIN / 2) =
          optimizeGo g swaps innerFuel (0 + 1) L C F64MIN (F64MIN / 2)
        rw [optimizeGo_once, optimizeGo_once]

/-- Witness for C4: the witness engine over qwerty with an empty candidate
swap list. -/
theorem claim_C4_termination_witness :
    (∃ n, ∀ m, n ≤ m →
      optimizeCachedF gW [] m QW (initCache gW QW) =
        optimizeCachedF gW [] n QW (initCache gW QW)) ∧
    (∃ n, ∀ m, n ≤ m →
      optimizeF gW [] m 0 QW (initCache gW QW) =
        optimizeF gW [] n 0 QW (initCache gW QW)) :=
  claim_C4_termination gW qwertyM gW_hyps QW qw_chars qw_len []
    (fun s hs => absurd hs (List.not_mem_nil s)) 0 (initCache gW QW)
